import Mathlib

/-!
TCP-IP-Server: transfer table, transfer engine and dispatch pass.

A shallow embedding of `file_transfer.c`, `server.c` (`server_read`,
`server_write`, `server_connections_accept`) and of `server_state_machine.c`
(`_client_connection_events_process`, `_client_connection_add` and the state
machine `server_state_machine_init`), followed by theorems about them.

Conventions
* `int` values are `Int`; `size_t` values are `Nat`, reduced modulo `2^64`
  where the code adds to them.
* A `char[33]` / `uint8_t[34]` array is a `List Nat` of byte values; the C
  string held by an array is `cstr`, the bytes before the first zero.
* System calls (`recv`, `send`, `accept`, `ioctl`, `poll`, `fopen`, `fread`,
  `fclose`, `close`) are inputs: their outcomes come from an environment
  record, and the calls that have an effect on the peer are recorded in a
  trace.
* Where the C code runs into undefined behaviour the model says so (a flag
  `undefined`, or the result `none`) and gives no result.
-/

namespace TcpServer

/-! ## Constants -/

/-- Value of `FILE_TRANSFER_NAME_SIZE_MAX`, written `32 + 1` in `file_transfer.h`. -/
def FILE_TRANSFER_NAME_SIZE_MAX : Nat := 32 + 1

/-- Value of `FILE_TRANSFER_PATH_NAME_SIZE_MAX`. -/
def FILE_TRANSFER_PATH_NAME_SIZE_MAX : Nat := 64

/-- Value of `FILE_TRANSFER_BUFF_READ_SIZE`. -/
def FILE_TRANSFER_BUFF_READ_SIZE : Nat := 32

/-- Bytes of `FILE_TRANSFER_TABLE`, the string "/home/vinay_divakar/file_storage". -/
def FILE_TRANSFER_TABLE : List Nat :=
  [47, 104, 111, 109, 101,
   47, 118, 105, 110, 97, 121, 95, 100, 105, 118, 97, 107, 97, 114,
   47, 102, 105, 108, 101, 95, 115, 116, 111, 114, 97, 103, 101]

/-- Value of `PACKET_HEADER_SIZE`. -/
def PACKET_HEADER_SIZE : Nat := 2

/-- Value of `PACKET_CRC_SIZE`. -/
def PACKET_CRC_SIZE : Nat := 0

/-- Value of `PACKET_MAX_SIZE`. -/
def PACKET_MAX_SIZE : Nat := 32 + PACKET_HEADER_SIZE + PACKET_CRC_SIZE

/-- Value of `SERVER_SOCKET_LISTEN_INDEX`. -/
def SERVER_SOCKET_LISTEN_INDEX : Nat := 0

/-- Value of `SERVER_STATE_MACHINE_FDS_MAX`, written `3 + 1` in `server.h`. -/
def SERVER_STATE_MACHINE_FDS_MAX : Nat := 3 + 1

/-- Linux errno values used by the code. -/
def ENOENT : Nat := 2
def EIO : Nat := 5
def EAGAIN : Nat := 11
def EWOULDBLOCK : Nat := 11
def EINVAL : Nat := 22
def ENOMSG : Nat := 42
def ENODATA : Nat := 61
def ENETRESET : Nat := 102
def ENOBUFS : Nat := 105

/-- Linux `poll.h` event bits. -/
def POLLIN : Nat := 1
def POLLPRI : Nat := 2
def POLLOUT : Nat := 4
def POLLERR : Nat := 8
def POLLHUP : Nat := 16
def POLLNVAL : Nat := 32

/-- Mask of a `short`, used to model `revents &= ~BIT`. -/
def SHORT_MASK : Nat := 65535

/-! ## Data model -/

/-- The C string held by a byte array: the bytes before the first zero. -/
def cstr (a : List Nat) : List Nat := a.takeWhile (fun b => b != 0)

/-- The struct `file_transfer_t`. `fp` is `none` for `NULL`; `filename` is the
whole `char[33]` array. -/
structure file_transfer_t where
  client_fd : Int
  fp : Option Nat
  transferred_total : Nat
  filename : List Nat
deriving DecidableEq, Repr

/-- A zero-initialised `file_transfer_t` (`= {}` or `memset(.., 0, ..)`). -/
def file_transfer_zero : file_transfer_t :=
  { client_fd := 0, fp := none, transferred_total := 0,
    filename := List.replicate FILE_TRANSFER_NAME_SIZE_MAX 0 }

/-- The four assignments that both `file_transfer_list_reset` and
`file_transfer_context_remove` perform on one element:
`client_fd = -1; fp = NULL; transferred_total = 0; filename[0] = 0`. -/
def slot_clear (s : file_transfer_t) : file_transfer_t :=
  { client_fd := -1, fp := none, transferred_total := 0,
    filename := s.filename.set 0 0 }

/-- A slot holds the empty sentinel values. -/
def slot_is_empty (s : file_transfer_t) : Prop :=
  s.client_fd = -1 ∧ s.fp = none ∧ s.transferred_total = 0 ∧ cstr s.filename = []

instance (s : file_transfer_t) : Decidable (slot_is_empty s) := by
  unfold slot_is_empty; infer_instance

/-! ## Transfer table (`file_transfer.c`) -/

/-- One iteration of the loop of `file_transfer_list_reset`: the body writes
through `list->`, that is to element 0, whatever the loop index is. -/
def file_transfer_list_reset_body (list : List file_transfer_t) (_i : Nat) :
    List file_transfer_t :=
  match list with
  | [] => []
  | s :: rest => slot_clear s :: rest

/-- The function `file_transfer_list_reset(list, file_transfer_list_size)`:
`for (i = 0; i < size; i++) { list->client_fd = -1; ... }`. -/
def file_transfer_list_reset (list : List file_transfer_t)
    (file_transfer_list_size : Nat) : List file_transfer_t :=
  (List.range file_transfer_list_size).foldl file_transfer_list_reset_body list

/-- The loop of `file_transfer_context_add`: skip slots with `client_fd >= 0`,
copy `ctx` into the first other slot and stop; `none` when the loop ends
without finding one. -/
def file_transfer_context_add_scan (ctx : file_transfer_t) :
    List file_transfer_t → Option (List file_transfer_t)
  | [] => none
  | s :: rest =>
    if s.client_fd >= 0 then
      (file_transfer_context_add_scan ctx rest).map (fun r => s :: r)
    else
      some (ctx :: rest)

/-- The function `file_transfer_context_add(ctx, list, size)`, where `size` is
the length of `list`; returns the `int` result and the table afterwards. -/
def file_transfer_context_add (ctx : file_transfer_t) (list : List file_transfer_t) :
    Int × List file_transfer_t :=
  if ctx.client_fd < 0 then
    (-(EINVAL : Int), list)
  else if ctx.filename.headD 0 = 0 then
    (-(ENODATA : Int), list)
  else
    match file_transfer_context_add_scan ctx list with
    | none => (-(ENOBUFS : Int), list)
    | some list' => (0, list')

/-- The function `file_transfer_context_remove(fd, list, size)`, where `size`
is the length of `list`: every slot with `client_fd == fd` is cleared. -/
def file_transfer_context_remove (fd : Int) (list : List file_transfer_t) :
    List file_transfer_t :=
  list.map (fun s => if s.client_fd ≠ fd then s else slot_clear s)

/-! ## Socket layer (`server.c`) -/

/-- Outcome of one `send(2)` call: the value returned and `errno`
(meaningful when the value is negative). -/
structure send_outcome where
  ret : Int
  errno : Nat
deriving DecidableEq, Repr

/-- The function `server_write`, given the outcome of its `send` call: the
byte count, `0` for would-block, `-errno` otherwise. -/
def server_write (o : send_outcome) : Int :=
  if o.ret < 0 then
    if o.errno = EWOULDBLOCK ∨ o.errno = EAGAIN then 0 else -(o.errno : Int)
  else o.ret

/-- Outcome of one `recv(2)` call: the bytes it stored (none for an orderly
close), or a failure with `errno`. -/
inductive recv_outcome where
  | bytes (b : List Nat)
  | failed (errno : Nat)
deriving DecidableEq, Repr

/-- Store `b` into `buf` starting at `offset`. -/
def buffer_write (buf : List Nat) (offset : Nat) (b : List Nat) : List Nat :=
  buf.take offset ++ b ++ buf.drop (offset + b.length)

/-- The loop of `server_read` over the outcomes of its successive `recv`
calls. A call stores at most `recv_buff_size - offset` bytes. When no outcome
is left nothing is pending on the non-blocking socket and `recv` fails with
`EWOULDBLOCK`. Returns `result` and the buffer. -/
def server_read_loop (recv_buff_size : Nat) :
    List recv_outcome → List Nat → Nat → Int → Int × List Nat
  | [], buf, _, total_recieved => (total_recieved, buf)
  | recv_outcome.failed errno :: _, buf, _, total_recieved =>
    if errno = EWOULDBLOCK ∨ errno = EAGAIN then (total_recieved, buf)
    else (-(errno : Int), buf)
  | recv_outcome.bytes b :: rest, buf, offset, total_recieved =>
    let got := b.take (recv_buff_size - offset)
    if got.length = 0 then (total_recieved, buf)
    else
      let offset' := offset + got.length
      server_read_loop recv_buff_size rest (buffer_write buf offset got)
        (if offset' ≥ recv_buff_size then 0 else offset')
        (total_recieved + (got.length : Int))

/-- The function `server_read(fd, recv_buff, recv_buff_size)` on a buffer
with initial contents `recv_buff`, given the outcomes of the `recv` calls. -/
def server_read (recvs : List recv_outcome) (recv_buff : List Nat)
    (recv_buff_size : Nat) : Int × List Nat :=
  server_read_loop recv_buff_size recvs recv_buff 0 0

/-! ## Transfer engine (`file_transfer.c`) -/

/-- A file as `fopen`/`fread`/`fclose` see it: its bytes (a file offset is an
`off_t`, so fewer than `2^63` of them), whether `ferror` is set after the
`fread`, and the `errno` of `fclose` (`0` when it succeeds). -/
structure file_obj where
  content : List Nat
  read_error : Bool
  close_errno : Nat
  size_ok : content.length < 9223372036854775808

/-- The file system: `fopen(path, "rb")` gives a file or fails with `errno`. -/
abbrev file_system := List Nat → Except Nat file_obj

/-- The path built by `snprintf(path, sizeof(path), "%s/%s", table, key)`:
at most `sizeof(path) - 1` characters are kept. -/
def file_path (table key : List Nat) : List Nat :=
  (cstr table ++ [47] ++ cstr key).take (FILE_TRANSFER_PATH_NAME_SIZE_MAX - 1)

/-- What `_file_read` hands back: its return value, the bytes stored at
the start of `data`, and `*eof`. -/
structure file_read_result where
  err : Int
  data : List Nat
  eof : Bool
deriving DecidableEq, Repr

/-- The function `_file_read(table, key, data, size, offset, fp, eof)`;
`eof_in` is the value of `*eof` on entry. `fseek` takes the offset as a
`long`, so it fails with `EINVAL` from `2^63` on. `feof` is set when `fread`
met the end of the file, that is when fewer than `size` bytes were left. -/
def _file_read (fs : file_system) (table key : List Nat) (size offset : Nat)
    (eof_in : Bool) : file_read_result :=
  match fs (file_path table key) with
  | Except.error errno => { err := -(errno : Int), data := [], eof := eof_in }
  | Except.ok f =>
    if offset ≥ 9223372036854775808 then
      { err := -(EINVAL : Int), data := [], eof := eof_in }
    else
      let got := (f.content.drop offset).take size
      let err : Int := if f.read_error then -( EIO : Int) else (got.length : Int)
      let eof := if f.read_error then eof_in else if got.length < size then true else eof_in
      { err := if f.close_errno ≠ 0 then -(f.close_errno : Int) else err,
        data := got, eof := eof }

/-- Outcomes of the two `send` calls one `file_transfer` call can make, as
functions of the bytes offered: the data chunk and the terminal byte. -/
structure send_env where
  data : List Nat → send_outcome
  marker : List Nat → send_outcome

/-- What one `file_transfer` call did: its return value, the context
afterwards, the data chunk offered to `server_write` with the result (if a
data send was made), the terminal byte offered with the result (if made). -/
structure transfer_result where
  err : Int
  ctx : file_transfer_t
  data_send : Option (List Nat × Int)
  marker_send : Option (Nat × Int)
deriving DecidableEq, Repr

/-- The function `file_transfer(fd, file_transfer)`. The terminal byte is the
first byte of the `int err` (little-endian), `err` being then the number of
bytes read. -/
def file_transfer (fs : file_system) (snd : send_env) (ft : file_transfer_t) :
    transfer_result :=
  let rd := _file_read fs FILE_TRANSFER_TABLE ft.filename
    FILE_TRANSFER_BUFF_READ_SIZE ft.transferred_total false
  if rd.err < 0 then
    { err := rd.err, ctx := ft, data_send := none, marker_send := none }
  else
    let chunk := rd.data.take rd.err.toNat
    let send_result : Int := if rd.err ≠ 0 then server_write (snd.data chunk) else 0
    let data_send := if rd.err ≠ 0 then some (chunk, send_result) else none
    if send_result ≥ 0 then
      let ft' := { ft with transferred_total :=
        (ft.transferred_total + send_result.toNat) % 18446744073709551616 }
      if rd.err = 0 ∨ rd.eof = true then
        let marker := (rd.err % 256).toNat
        let r := server_write (snd.marker [marker])
        { err := if r < 0 then r else 0, ctx := ft',
          data_send := data_send, marker_send := some (marker, r) }
      else
        { err := rd.err, ctx := ft', data_send := data_send, marker_send := none }
    else
      { err := send_result, ctx := ft, data_send := data_send, marker_send := none }

/-- The bytes a data send delivered to the peer: the first `result` bytes of
the chunk offered (none when the send would block or failed). -/
def bytes_delivered (r : transfer_result) : List Nat :=
  match r.data_send with
  | none => []
  | some (chunk, res) => chunk.take res.toNat

/-- Call `file_transfer` again and again on the context it leaves, as the
dispatch loop does on successive write-readiness events, until a call
returns `0` or less, at most `fuel` times. Gives the results of the calls
made, in order. -/
def file_transfer_repeat (fs : file_system) (snd : send_env) :
    Nat → file_transfer_t → List transfer_result
  | 0, _ => []
  | fuel + 1, ft =>
    let r := file_transfer fs snd ft
    if r.err ≤ 0 then [r] else r :: file_transfer_repeat fs snd fuel r.ctx

/-- Number of calls, among those made, in which a data send was made. -/
def data_send_count (rs : List transfer_result) : Nat :=
  (rs.filter (fun r => r.data_send.isSome)).length

/-- The bytes delivered by the data sends of the calls made, in order. -/
def delivered_stream : List transfer_result → List Nat
  | [] => []
  | r :: rs => bytes_delivered r ++ delivered_stream rs

/-- The number of data bytes one `file_transfer` call actually sent: the
result of its data send when that is positive, else none. -/
def bytes_sent_count (r : transfer_result) : Nat :=
  match r.data_send with
  | none => 0
  | some (_, res) => res.toNat

/-! ## Dispatch pass (`server_state_machine.c`) -/

/-- The struct `pollfd`. -/
structure pollfd where
  fd : Int
  events : Nat
  revents : Nat
deriving DecidableEq, Repr

/-- A zero-initialised `pollfd`. -/
def pollfd_zero : pollfd := { fd := 0, events := 0, revents := 0 }

/-- Effects of a pass on the outside: `close(fd)`, and `server_write(fd, ..)`
with the bytes offered and its result. -/
inductive io_event where
  | close (fd : Int)
  | send (fd : Int) (bytes : List Nat) (result : Int)
deriving DecidableEq, Repr

/-- What the dispatch pass reads from outside: the value of
`CMD_DOWNLOAD_FILE` (declared in `commands.h`), the outcomes of the `recv`
calls on each descriptor, the file system, and the outcomes of the `send`
calls on each descriptor. -/
structure pass_env where
  cmd_download_file : Nat
  recv : Int → List recv_outcome
  fs : file_system
  send : Int → send_env

/-- The function `_client_connection_close(fds)`. -/
def _client_connection_close (fds : pollfd) : pollfd × List io_event :=
  if fds.fd ≥ 0 then
    ({ fds with fd := -1, events := 0 }, [io_event.close fds.fd])
  else (fds, [])

/-- The function `_client_connection_resources_release(fd, list, size)`. -/
def _client_connection_resources_release (fd : pollfd) (list : List file_transfer_t) :
    pollfd × List file_transfer_t × List io_event :=
  let list' := file_transfer_context_remove fd.fd list
  let c := _client_connection_close fd
  (c.1, list', c.2)

/-- The `copy_size` computed in the read-readiness branch:
`(length < FILE_TRANSFER_NAME_SIZE_MAX) ? length : FILE_TRANSFER_NAME_SIZE_MAX`. -/
def copy_size (length : Nat) : Nat :=
  if length < FILE_TRANSFER_NAME_SIZE_MAX then length else FILE_TRANSFER_NAME_SIZE_MAX

/-- The `filename` array of `transfer_ctx` after
`memset(&transfer_ctx, 0, ..)`, `memcpy(filename, data + PACKET_HEADER_SIZE,
copy_size)` and `filename[copy_size] = 0`, where `data` is the 34-byte array
`packet_rx.data`. The copy reads `data[2 .. 2 + copy_size - 1]` and the last
write needs `copy_size < 33`; when one of the two accesses falls outside its
array the behaviour of the C code is undefined and the result is `none`. -/
def download_filename (data : List Nat) : Option (List Nat) :=
  let n := copy_size (data.getD 1 0)
  if PACKET_HEADER_SIZE + n ≤ PACKET_MAX_SIZE ∧ n < FILE_TRANSFER_NAME_SIZE_MAX then
    let src := (data.drop PACKET_HEADER_SIZE).take n
    let arr := src ++ List.replicate (FILE_TRANSFER_NAME_SIZE_MAX - src.length) 0
    some (arr.set n 0)
  else none

/-- The `transfer_ctx` built in the read-readiness branch for descriptor `fd`
from the received buffer; `none` when building it is undefined. -/
def download_context (fd : Int) (data : List Nat) : Option file_transfer_t :=
  (download_filename data).map (fun name =>
    { client_fd := fd, fp := none, transferred_total := 0, filename := name })

/-- What handling one slot in the loop of `_client_connection_events_process`
leaves: the slot, the transfer table, `err`, the effects, and whether the
loop is left by `break`. When `undefined` is set the C code has run into
undefined behaviour and the other fields carry no information. -/
structure slot_result where
  slot : pollfd
  table : List file_transfer_t
  err : Int
  trace : List io_event
  brk : Bool
  undefined : Bool := false
deriving DecidableEq, Repr

/-- The label `CONNECTION_RELEASE`: release the slot when `err < 0`. -/
def connection_release (f : pollfd) (table : List file_transfer_t) (err : Int)
    (trace : List io_event) : slot_result :=
  if err < 0 then
    let r := _client_connection_resources_release f table
    { slot := r.1, table := r.2.1, err := err, trace := trace ++ r.2.2, brk := false }
  else
    { slot := f, table := table, err := err, trace := trace, brk := false }

/-- The read-readiness branch of the loop body. -/
def slot_pollin (env : pass_env) (f : pollfd) (table : List file_transfer_t) :
    slot_result :=
  let f1 := { f with revents := f.revents &&& (SHORT_MASK ^^^ POLLIN) }
  let rd := server_read (env.recv f1.fd) (List.replicate PACKET_MAX_SIZE 0) PACKET_MAX_SIZE
  if rd.1 ≤ 0 then
    connection_release f1 table (if rd.1 = 0 then -(ENETRESET : Int) else rd.1) []
  else if rd.2.getD 0 0 ≠ env.cmd_download_file then
    connection_release f1 table (-(ENOMSG : Int)) []
  else
    match download_context f1.fd rd.2 with
    | none =>
      { slot := f1, table := table, err := 0, trace := [], brk := true, undefined := true }
    | some transfer_ctx =>
      let a := file_transfer_context_add transfer_ctx table
      if a.1 < 0 then
        connection_release f1 a.2 a.1 []
      else
        connection_release { f1 with events := f1.events ||| POLLOUT } a.2 a.1 []

/-- The effects of one `file_transfer` call on descriptor `fd`. -/
def transfer_trace (fd : Int) (r : transfer_result) : List io_event :=
  (match r.data_send with
   | none => []
   | some (chunk, res) => [io_event.send fd chunk res]) ++
  (match r.marker_send with
   | none => []
   | some (m, res) => [io_event.send fd [m] res])

/-- The write-readiness branch of the loop body: `file_transfer` is called
with `_file_transfer`, the address of element 0 of the table. -/
def slot_pollout (env : pass_env) (f : pollfd) (table : List file_transfer_t) :
    slot_result :=
  let f1 := { f with revents := f.revents &&& (SHORT_MASK ^^^ POLLOUT) }
  let r := file_transfer env.fs (env.send f1.fd) (table.headD file_transfer_zero)
  let table1 := table.set 0 r.ctx
  let tr := transfer_trace f1.fd r
  if r.err < 0 then
    let rel := _client_connection_resources_release f1 table1
    { slot := rel.1, table := rel.2.1, err := r.err, trace := tr ++ rel.2.2, brk := true }
  else if r.err = 0 then
    { slot := { f1 with events := POLLIN }, table := table1, err := r.err,
      trace := tr, brk := true }
  else
    { slot := f1, table := table1, err := r.err, trace := tr, brk := true }

/-- The body of the loop of `_client_connection_events_process` for the slot
`f = _fds[i]`, starting with `err = 0`. -/
def slot_events_process (env : pass_env) (f : pollfd) (table : List file_transfer_t) :
    slot_result :=
  if f.revents &&& POLLNVAL ≠ 0 then
    { slot := f, table := table, err := -(ENOENT : Int), trace := [], brk := true }
  else if f.revents &&& POLLERR ≠ 0 ∨ f.revents &&& POLLHUP ≠ 0 then
    connection_release f table (-( EIO : Int)) []
  else if f.revents &&& POLLPRI ≠ 0 then
    { slot := f, table := table, err := 0, trace := [], brk := false }
  else if f.revents &&& POLLIN ≠ 0 then
    slot_pollin env f table
  else if f.revents &&& POLLOUT ≠ 0 then
    slot_pollout env f table
  else if f.revents = 0 then
    { slot := f, table := table, err := 0, trace := [], brk := false }
  else
    { slot := f, table := table, err := -(ENOMSG : Int), trace := [], brk := true }

/-- The state a dispatch pass works on: `_fds`, `_file_transfer`, the local
`err`, and the effects so far. When `undefined` is set the C code has run
into undefined behaviour and the other fields carry no information. -/
structure pass_state where
  fds : List pollfd
  table : List file_transfer_t
  err : Int
  trace : List io_event
  undefined : Bool := false
deriving DecidableEq, Repr

/-- One iteration of the loop of `_client_connection_events_process`, for the
slot index `i`: the state afterwards and whether the loop is left. -/
def events_loop_step (env : pass_env) (i : Nat) (st : pass_state) : pass_state × Bool :=
  let r := slot_events_process env (st.fds.getD i pollfd_zero) st.table
  ({ fds := st.fds.set i r.slot, table := r.table, err := r.err,
     trace := st.trace ++ r.trace, undefined := st.undefined || r.undefined }, r.brk)

/-- The loop of `_client_connection_events_process` over the slot indices
still to visit. -/
def events_loop (env : pass_env) : List Nat → pass_state → pass_state
  | [], st => st
  | i :: rest, st =>
    let r := events_loop_step env i st
    if r.2 then r.1 else events_loop env rest r.1

/-- The state of the loop at the moment it comes to handle slot `i`, when it
gets there: `none` when the loop is left before, or `i` is not to be
visited. -/
def events_loop_at (env : pass_env) : List Nat → pass_state → Nat → Option pass_state
  | [], _, _ => none
  | j :: rest, st, i =>
    if j = i then some st
    else
      let r := events_loop_step env j st
      if r.2 then none else events_loop_at env rest r.1 i

/-- The function `_client_connection_events_process()` on the globals `_fds`
and `_file_transfer`: slots `SERVER_SOCKET_LISTEN_INDEX + 1` up to
`SERVER_STATE_MACHINE_FDS_MAX - 1`; the field `err` is the value returned. -/
def _client_connection_events_process (env : pass_env) (fds : List pollfd)
    (table : List file_transfer_t) : pass_state :=
  events_loop env
    (List.range' (SERVER_SOCKET_LISTEN_INDEX + 1)
      (SERVER_STATE_MACHINE_FDS_MAX - (SERVER_SOCKET_LISTEN_INDEX + 1)))
    { fds := fds, table := table, err := 0, trace := [] }

/-- The enum `server_state_t`. -/
inductive server_state_t where
  | SERVER_LISTEN_BEGIN
  | SERVER_POLL_FOR_EVENTS
  | SERVER_POLL_INCOMING_CONNECTIONS
  | SERVER_PROCESS_CONNECTION_EVENTS
  | SERVER_FATAL_ERROR
deriving DecidableEq, Repr

/-- The case `SERVER_PROCESS_CONNECTION_EVENTS` of
`server_state_machine_init`: the next state and the globals afterwards. -/
def server_state_machine_process_case (env : pass_env) (fds : List pollfd)
    (table : List file_transfer_t) : server_state_t × pass_state :=
  let st := _client_connection_events_process env fds table
  (if st.err < 0 then server_state_t.SERVER_FATAL_ERROR
   else server_state_t.SERVER_POLL_FOR_EVENTS, st)

/-- The static array `_file_transfer` as the program starts: four
zero-initialised elements. -/
def _file_transfer_initial : List file_transfer_t :=
  List.replicate SERVER_STATE_MACHINE_FDS_MAX file_transfer_zero

/-! ## Connection-local failures, as the loop body meets them -/

/-- The descriptors closed by the effects of a pass, in order. -/
def closed_fds : List io_event → List Int
  | [] => []
  | io_event.close fd :: rest => fd :: closed_fds rest
  | io_event.send _ _ _ :: rest => closed_fds rest

/-- The received buffer `packet_rx.data` for the slot `f`. -/
def received_packet (env : pass_env) (f : pollfd) : Int × List Nat :=
  server_read (env.recv f.fd) (List.replicate PACKET_MAX_SIZE 0) PACKET_MAX_SIZE

/-- A connection-local failure met on the slot `f` outside the
write-readiness branch: error or hangup readiness, or, on read-readiness, a
peer close or receive error, an unrecognised command, or a failed
registration of the transfer context. -/
def read_path_failure (env : pass_env) (f : pollfd) (table : List file_transfer_t) : Prop :=
  f.revents &&& POLLNVAL = 0 ∧
  ((f.revents &&& POLLERR ≠ 0 ∨ f.revents &&& POLLHUP ≠ 0) ∨
   (f.revents &&& POLLERR = 0 ∧ f.revents &&& POLLHUP = 0 ∧ f.revents &&& POLLPRI = 0 ∧
    f.revents &&& POLLIN ≠ 0 ∧
    ((received_packet env f).1 ≤ 0 ∨
     (received_packet env f).2.getD 0 0 ≠ env.cmd_download_file ∨
     (match download_context f.fd (received_packet env f).2 with
      | none => False
      | some ctx => (file_transfer_context_add ctx table).1 < 0))))

/-- A connection-local failure met on the slot `f` in the write-readiness
branch: `file_transfer` fails (file open, seek, read or close error, or send
error). -/
def write_path_failure (env : pass_env) (f : pollfd) (table : List file_transfer_t) : Prop :=
  f.revents &&& POLLNVAL = 0 ∧ f.revents &&& POLLERR = 0 ∧ f.revents &&& POLLHUP = 0 ∧
  f.revents &&& POLLPRI = 0 ∧ f.revents &&& POLLIN = 0 ∧ f.revents &&& POLLOUT ≠ 0 ∧
  (file_transfer env.fs (env.send f.fd) (table.headD file_transfer_zero)).err < 0

instance (env : pass_env) (f : pollfd) (table : List file_transfer_t) :
    Decidable (read_path_failure env f table) := by
  unfold read_path_failure
  cases download_context f.fd (received_packet env f).2 <;> infer_instance

instance (env : pass_env) (f : pollfd) (table : List file_transfer_t) :
    Decidable (write_path_failure env f table) := by
  unfold write_path_failure; infer_instance

/-! ## Sequences of table operations -/

/-- A call on the transfer table issued by the dispatch loop. -/
inductive table_op where
  | add (ctx : file_transfer_t)
  | remove (fd : Int)
deriving DecidableEq, Repr

/-- The table after one call (the result of `add` is dropped). -/
def table_step (t : List file_transfer_t) : table_op → List file_transfer_t
  | table_op.add ctx => (file_transfer_context_add ctx t).2
  | table_op.remove fd => file_transfer_context_remove fd t

/-- The table after a sequence of calls. -/
def table_run (t : List file_transfer_t) (ops : List table_op) : List file_transfer_t :=
  ops.foldl table_step t

/-- Number of slots whose `client_fd` is `fd`. -/
def count_fd (fd : Int) (t : List file_transfer_t) : Nat :=
  t.countP (fun s => s.client_fd = fd)

/-- For every connection identifier `fd >= 0` at most one slot has
`client_fd = fd`. -/
def table_unique (t : List file_transfer_t) : Prop :=
  ∀ fd : Int, 0 ≤ fd → count_fd fd t ≤ 1

/-! ## Accepting connections (`server.c`, `server_state_machine.c`) -/

/-- Outcome of one `accept(2)` call on the listening socket: the value
returned (the new descriptor, or a negative value) and `errno`. -/
structure accept_outcome where
  ret : Int
  errno : Nat
deriving DecidableEq, Repr

/-- The loop of `_client_connection_add` over the client slots: skip the
slots with `fd >= 0`; store `fd` and `events` in the first other slot, call
`ioctl` on it (`ioctl_ret` is what it returns) and close the slot again when
that fails; `none` when the loop ends without finding a slot. -/
def _client_connection_add_scan (ioctl_ret : Int) (fd : Int) (events : Nat) :
    List pollfd → Option (List pollfd × List io_event)
  | [] => none
  | s :: rest =>
    if s.fd ≥ 0 then
      (_client_connection_add_scan ioctl_ret fd events rest).map (fun r => (s :: r.1, r.2))
    else
      let s1 := { s with fd := fd, events := events }
      if ioctl_ret < 0 then
        let c := _client_connection_close s1
        some (c.1 :: rest, c.2)
      else some (s1 :: rest, [])

/-- The function `_client_connection_add(fd, events)` on the global `_fds`,
whose element `SERVER_SOCKET_LISTEN_INDEX` (the first) is not scanned; `ioctl`
gives the value returned by `ioctl(fd, FIONBIO, ..)`. Returns `err`, `_fds`
and the effects. -/
def _client_connection_add (ioctl : Int → Int) (fd : Int) (events : Nat)
    (fds : List pollfd) : Int × List pollfd × List io_event :=
  match fds with
  | [] => (-(ENOBUFS : Int), [], [])
  | listen :: clients =>
    match _client_connection_add_scan (ioctl fd) fd events clients with
    | none => (-(ENOBUFS : Int), listen :: clients, [])
    | some r => (ioctl fd, listen :: r.1, r.2)

/-- The `do { ... } while (fd_new != -1)` loop of `server_connections_accept`
over the outcomes of its successive `accept` calls (when none is left nothing
is pending and `accept` fails with `EWOULDBLOCK`). The body declares its own
`int fd_new` for the value of `accept`; the `fd_new` of the loop condition,
outside the body, is the variable declared before the loop, passed here as
`fd_new`. The callback `client_fd_add` acts on a state; its result is not
used. Returns `err`, the state, and the outcomes not consumed. -/
def server_connections_accept_loop {σ : Type} (client_fd_add : Int → Nat → σ → σ)
    (events : Nat) (fd_new : Int) : List accept_outcome → σ → Int × σ × List accept_outcome
  | [], st => (0, st, [])
  | o :: rest, st =>
    if o.ret < 0 then
      (if o.errno = EWOULDBLOCK then 0 else -(o.errno : Int), st, rest)
    else
      let st' := client_fd_add o.ret events st
      if fd_new ≠ -1 then
        server_connections_accept_loop client_fd_add events fd_new rest st'
      else (0, st', rest)

/-- The function `server_connections_accept(fd, events, client_fd_add)`:
`fd_new` is initialised to `-1` before the loop and never assigned. -/
def server_connections_accept {σ : Type} (client_fd_add : Int → Nat → σ → σ)
    (events : Nat) (accepts : List accept_outcome) (st : σ) :
    Int × σ × List accept_outcome :=
  server_connections_accept_loop client_fd_add events (-1) accepts st

/-- The callback `_client_connection_add` as `server_connections_accept` uses
it: it acts on `_fds` and the effects so far. -/
def _client_connection_add_callback (ioctl : Int → Int) (fd : Int) (events : Nat)
    (st : List pollfd × List io_event) : List pollfd × List io_event :=
  let r := _client_connection_add ioctl fd events st.1
  (r.2.1, st.2 ++ r.2.2)

/-- A callback that only records its arguments. -/
def callback_record (fd : Int) (events : Nat) (log : List (Int × Nat)) : List (Int × Nat) :=
  log ++ [(fd, events)]

/-! ## The state machine (`server_state_machine_init`) -/

/-- The function `_reset_descriptor_set`. -/
def _reset_descriptor_set (fds : List pollfd) : List pollfd :=
  fds.map (fun f => { f with fd := -1, events := 0 })

/-- The function `_client_connections_clean_up`: `_fds` afterwards and the
descriptors closed. -/
def _client_connections_clean_up (fds : List pollfd) : List pollfd × List io_event :=
  (fds.map (fun f => { f with events := 0 }),
   fds.filterMap (fun f => if f.fd ≥ 0 then some (io_event.close f.fd) else none))

/-- What a successful `poll(_fds, ..)` stores: the `revents` of each entry,
`revents i` being the value for entry `i`; the first entry has index
`start`. -/
def poll_store (revents : Nat → Nat) : Nat → List pollfd → List pollfd
  | _, [] => []
  | start, f :: rest =>
    { f with revents := revents start } :: poll_store revents (start + 1) rest

/-- What one call of `server_state_machine_init` reads from outside: the
value of `server_listen_begin`, the value of `poll` and the `revents` it
stores, the outcomes of the `accept` calls, the values of `ioctl`, and what
the dispatch pass reads. -/
structure step_env where
  listen : Int
  poll_ret : Int
  poll_revents : Nat → Nat
  accepts : List accept_outcome
  ioctl : Int → Int
  pass : pass_env

/-- The static variables of `server_state_machine.c`: `state`, `_fds` and
`_file_transfer`; whether `exit` was called; whether the C code has run into
undefined behaviour (the other fields then carry no information). -/
structure server_t where
  state : server_state_t
  fds : List pollfd
  table : List file_transfer_t
  exited : Bool := false
  undefined : Bool := false

/-- The static variables as the program starts: `state` is
`SERVER_LISTEN_BEGIN`, the arrays are zero-initialised. -/
def server_start : server_t :=
  { state := server_state_t.SERVER_LISTEN_BEGIN,
    fds := List.replicate SERVER_STATE_MACHINE_FDS_MAX pollfd_zero,
    table := _file_transfer_initial }

/-- The function `server_state_machine_init()`: one call, on the static
variables. -/
def server_state_machine_init (e : step_env) (s : server_t) : server_t :=
  match s.state with
  | server_state_t.SERVER_LISTEN_BEGIN =>
    let fds := _reset_descriptor_set s.fds
    let table := file_transfer_list_reset s.table SERVER_STATE_MACHINE_FDS_MAX
    if e.listen < 0 then
      { s with state := server_state_t.SERVER_FATAL_ERROR, fds := fds, table := table }
    else
      { s with state := server_state_t.SERVER_POLL_FOR_EVENTS,
               fds := fds.set SERVER_SOCKET_LISTEN_INDEX
                 { (fds.getD SERVER_SOCKET_LISTEN_INDEX pollfd_zero) with
                   fd := e.listen, events := POLLIN },
               table := table }
  | server_state_t.SERVER_POLL_FOR_EVENTS =>
    if e.poll_ret < 0 then
      { s with state := server_state_t.SERVER_FATAL_ERROR }
    else
      { s with state := server_state_t.SERVER_POLL_INCOMING_CONNECTIONS,
               fds := poll_store e.poll_revents 0 s.fds }
  | server_state_t.SERVER_POLL_INCOMING_CONNECTIONS =>
    let l := s.fds.getD SERVER_SOCKET_LISTEN_INDEX pollfd_zero
    if l.revents &&& POLLIN ≠ 0 then
      let r := server_connections_accept (_client_connection_add_callback e.ioctl) POLLIN
        e.accepts (s.fds, [])
      { s with state := server_state_t.SERVER_POLL_FOR_EVENTS, fds := r.2.1.1 }
    else if l.revents ≠ 0 ∧ l.revents ≠ POLLIN then
      { s with state := server_state_t.SERVER_FATAL_ERROR }
    else
      { s with state := server_state_t.SERVER_PROCESS_CONNECTION_EVENTS }
  | server_state_t.SERVER_PROCESS_CONNECTION_EVENTS =>
    let r := server_state_machine_process_case e.pass s.fds s.table
    { s with state := r.1, fds := r.2.fds, table := r.2.table, undefined := r.2.undefined }
  | server_state_t.SERVER_FATAL_ERROR =>
    { s with fds := (_client_connections_clean_up s.fds).1, exited := true }

/-- What `poll` guarantees about the `revents` it stores for `_fds`: an entry
with a negative descriptor gets 0, and `POLLIN`, `POLLPRI` and `POLLOUT` are
reported only where `events` asks for them. -/
def poll_ok (fds : List pollfd) (revents : Nat → Nat) : Prop :=
  ∀ i, i < fds.length →
    ((fds.getD i pollfd_zero).fd < 0 → revents i = 0) ∧
    (revents i &&& POLLIN ≠ 0 → (fds.getD i pollfd_zero).events &&& POLLIN ≠ 0) ∧
    (revents i &&& POLLPRI ≠ 0 → (fds.getD i pollfd_zero).events &&& POLLPRI ≠ 0) ∧
    (revents i &&& POLLOUT ≠ 0 → (fds.getD i pollfd_zero).events &&& POLLOUT ≠ 0)

/-- What `accept` guarantees about a descriptor it returns: it is not a
descriptor that is open, so it is not one held in `_fds` and it is not
descriptor 0 (standard input, which the program never closes, or else the
listening socket, which then holds descriptor 0 in `_fds`). -/
def accept_ok (fds : List pollfd) (accepts : List accept_outcome) : Prop :=
  ∀ o ∈ accepts, 0 ≤ o.ret → o.ret ≠ 0 ∧ ∀ f ∈ fds, f.fd ≠ o.ret

instance (fds : List pollfd) (revents : Nat → Nat) : Decidable (poll_ok fds revents) := by
  unfold poll_ok; infer_instance

instance (fds : List pollfd) (accepts : List accept_outcome) :
    Decidable (accept_ok fds accepts) := by
  unfold accept_ok; infer_instance

/-- The states of the static variables that the program can be in between
two calls of `server_state_machine_init`, under `poll_ok` and `accept_ok`,
as long as `exit` was not called and no undefined behaviour occurred. -/
inductive reachable : server_t → Prop where
  | start : reachable server_start
  | step (e : step_env) (s : server_t) :
      reachable s → s.exited = false → s.undefined = false →
      (s.state = server_state_t.SERVER_POLL_FOR_EVENTS → poll_ok s.fds e.poll_revents) →
      (s.state = server_state_t.SERVER_POLL_INCOMING_CONNECTIONS →
        accept_ok s.fds e.accepts) →
      reachable (server_state_machine_init e s)

/-- The state of the loop of `_client_connection_events_process` at the
moment it comes to handle slot `i`, when it gets there. -/
def _client_connection_events_process_at (env : pass_env) (fds : List pollfd)
    (table : List file_transfer_t) (i : Nat) : Option pass_state :=
  events_loop_at env
    (List.range' (SERVER_SOCKET_LISTEN_INDEX + 1)
      (SERVER_STATE_MACHINE_FDS_MAX - (SERVER_SOCKET_LISTEN_INDEX + 1)))
    { fds := fds, table := table, err := 0, trace := [] } i

/-- The slot `f` is handled in the write-readiness branch of the loop body. -/
def write_ready (f : pollfd) : Prop :=
  f.revents &&& POLLNVAL = 0 ∧ f.revents &&& POLLERR = 0 ∧ f.revents &&& POLLHUP = 0 ∧
  f.revents &&& POLLPRI = 0 ∧ f.revents &&& POLLIN = 0 ∧ f.revents &&& POLLOUT ≠ 0

instance (f : pollfd) : Decidable (write_ready f) := by
  unfold write_ready; infer_instance

/-- The invariant of the states reached while serving: `_fds` has four
entries; the transfer table has a first element followed by elements whose
`client_fd` is 0; no client slot holds descriptor 0; a client slot whose
`events` ask for write-readiness holds an open descriptor, which is the
`client_fd` of the first element of the table; two client slots do not hold
the same open descriptor. -/
def serving_inv (fds : List pollfd) (table : List file_transfer_t) : Prop :=
  fds.length = 4 ∧
  (∃ c rest, table = c :: rest ∧ ∀ s ∈ rest, s.client_fd = 0) ∧
  (∀ i, 1 ≤ i → i ≤ 3 →
    (fds.getD i pollfd_zero).fd ≠ 0 ∧
    ((fds.getD i pollfd_zero).events &&& POLLOUT ≠ 0 →
      0 ≤ (fds.getD i pollfd_zero).fd ∧
      (table.headD file_transfer_zero).client_fd = (fds.getD i pollfd_zero).fd)) ∧
  (∀ i j, 1 ≤ i → i ≤ 3 → 1 ≤ j → j ≤ 3 → i ≠ j →
    0 ≤ (fds.getD i pollfd_zero).fd →
    (fds.getD i pollfd_zero).fd ≠ (fds.getD j pollfd_zero).fd)

/-- What handling the slot `f` keeps of `serving_inv`, the table before being
`c :: rest`: the table afterwards is some `c' :: rest`; the slot keeps its
descriptor or is closed; if it asks for write-readiness afterwards it is open
and `c'` is its context; and if `c` was the context of another open
descriptor, `c'` still is. -/
def slot_keeps (f : pollfd) (c : file_transfer_t) (rest : List file_transfer_t)
    (r : slot_result) : Prop :=
  ∃ c', r.table = c' :: rest ∧ (r.slot.fd = f.fd ∨ r.slot.fd = -1) ∧
    (r.slot.events &&& POLLOUT ≠ 0 → 0 ≤ r.slot.fd ∧ c'.client_fd = r.slot.fd) ∧
    (∀ y : Int, 0 ≤ y → y ≠ f.fd → c.client_fd = y → c'.client_fd = y)

/-- Successive calls of `server_state_machine_init`, one for each element of
`es`, from the static variables `s`. -/
def server_run (s : server_t) (es : List step_env) : server_t :=
  es.foldl (fun s e => server_state_machine_init e s) s

/-- Each call of `server_run s es` is made as `reachable` asks: `exit` was not
called, no undefined behaviour occurred, and what `poll` stores and `accept`
returns is as `poll_ok` and `accept_ok` say. -/
def run_ok : server_t → List step_env → Bool
  | _, [] => true
  | s, e :: es =>
    decide (s.exited = false) && decide (s.undefined = false) &&
    decide (s.state = server_state_t.SERVER_POLL_FOR_EVENTS → poll_ok s.fds e.poll_revents) &&
    decide (s.state = server_state_t.SERVER_POLL_INCOMING_CONNECTIONS →
      accept_ok s.fds e.accepts) &&
    run_ok (server_state_machine_init e s) es

/-! ## Concrete inputs used by the evaluations below -/

/-- An empty slot: a zero-initialised element after `slot_clear`. -/
def slot_empty : file_transfer_t := slot_clear file_transfer_zero

/-- A `char[33]` array holding the string `name` followed by zeros. -/
def filename_of (name : List Nat) : List Nat :=
  name ++ List.replicate (FILE_TRANSFER_NAME_SIZE_MAX - name.length) 0

/-- A fresh context for descriptor `fd` and file `name`. -/
def ctx_of (fd : Int) (name : List Nat) : file_transfer_t :=
  { client_fd := fd, fp := none, transferred_total := 0, filename := filename_of name }

/-- A file of five bytes that reads and closes without error. -/
def file_five : file_obj :=
  { content := [104, 101, 108, 108, 111], read_error := false, close_errno := 0,
    size_ok := by decide }

/-- A file of forty bytes that reads and closes without error. -/
def file_forty : file_obj :=
  { content := List.range 40, read_error := false, close_errno := 0,
    size_ok := by decide }

/-- A file of no bytes that reads and closes without error. -/
def file_none : file_obj :=
  { content := [], read_error := false, close_errno := 0, size_ok := by decide }

/-- A file system holding `file_five` under the name "a", `file_forty` under
the name "b" and `file_none` under the name "e"; any other `fopen` fails with
`ENOENT`. -/
def fs_demo : file_system := fun path =>
  if path = file_path FILE_TRANSFER_TABLE [97] then Except.ok file_five
  else if path = file_path FILE_TRANSFER_TABLE [98] then Except.ok file_forty
  else if path = file_path FILE_TRANSFER_TABLE [101] then Except.ok file_none
  else Except.error ENOENT

/-- Every `send` accepts all the bytes offered. -/
def send_all : send_env :=
  { data := fun b => { ret := (b.length : Int), errno := 0 },
    marker := fun b => { ret := (b.length : Int), errno := 0 } }

/-- A received frame: command byte, declared length, payload, zero padding up
to `PACKET_MAX_SIZE` bytes. -/
def frame_of (cmd length : Nat) (payload : List Nat) : List Nat :=
  ([cmd, length] ++ payload ++ List.replicate PACKET_MAX_SIZE 0).take PACKET_MAX_SIZE

/-- An environment where `CMD_DOWNLOAD_FILE` is 1, the files are those of
`fs_demo`, every send accepts all the bytes offered, and `recv` behaves as
given. -/
def env_of (recv : Int → List recv_outcome) : pass_env :=
  { cmd_download_file := 1, recv := recv, fs := fs_demo, send := fun _ => send_all }

/-- Nothing is pending on any descriptor. -/
def recv_none : Int → List recv_outcome := fun _ => []

/-- The peer of descriptor 4 has closed: `recv` returns 0. -/
def recv_closed4 : Int → List recv_outcome :=
  fun fd => if fd = 4 then [recv_outcome.bytes []] else []

/-- A listening slot and three client slots, the client slots given. -/
def fds_of (c1 c2 c3 : pollfd) : List pollfd :=
  [{ fd := 3, events := POLLIN, revents := 0 }, c1, c2, c3]

/-- An unused client slot. -/
def slot_unused : pollfd := { fd := -1, events := 0, revents := 0 }

/-- One `recv` on descriptor 4 delivers the given frame; nothing else is
pending. -/
def recv_frame4 (frame : List Nat) : Int → List recv_outcome :=
  fun fd => if fd = 4 then [recv_outcome.bytes frame] else []

/-- The data send would block (`send` returns -1 with `EAGAIN`); the send of
the terminal byte is accepted. -/
def send_block : send_env :=
  { data := fun _ => { ret := -1, errno := EAGAIN },
    marker := fun b => { ret := (b.length : Int), errno := 0 } }

/-- The environment `env_of recv_none` with sends as in `send_block`. -/
def env_block : pass_env :=
  { cmd_download_file := 1, recv := recv_none, fs := fs_demo, send := fun _ => send_block }

/-- Two connections are pending on the listening socket: `accept` would
return descriptor 4, then descriptor 5. -/
def accepts_two : List accept_outcome :=
  [{ ret := 4, errno := 0 }, { ret := 5, errno := 0 }]

/-- The peer of descriptor 6 has closed: `recv` returns 0. -/
def recv_closed6 : Int → List recv_outcome :=
  fun fd => if fd = 6 then [recv_outcome.bytes []] else []

/-- The transfer table as the server leaves `SERVER_LISTEN_BEGIN`:
`file_transfer_list_reset` applied to the zero-initialised static array. -/
def table_start : List file_transfer_t :=
  file_transfer_list_reset _file_transfer_initial SERVER_STATE_MACHINE_FDS_MAX

/-- One call of `server_state_machine_init` reads this: the listening socket
is descriptor 3, `poll` succeeds and stores `revents`, the `accept` calls
have the outcomes `accepts`, `ioctl` succeeds, the dispatch pass reads
`pass`. -/
def step_of (revents : Nat → Nat) (accepts : List accept_outcome) (pass : pass_env) :
    step_env :=
  { listen := 3, poll_ret := 1, poll_revents := revents, accepts := accepts,
    ioctl := fun _ => 0, pass := pass }

/-- The value `poll` stores: `revents` for entry `i`, 0 for the others. -/
def revents_at (i revents : Nat) : Nat → Nat := fun j => if j = i then revents else 0

/-- Eight calls from the start of the program: listen; a connection is
pending and is accepted as descriptor 4; it sends a download request for the
file "a", which is registered; then `poll` reports it writable and the state
machine comes to `SERVER_PROCESS_CONNECTION_EVENTS`. -/
def steps_to_write : List step_env :=
  [ step_of (revents_at 0 0) [] (env_of recv_none),
    step_of (revents_at 0 POLLIN) [] (env_of recv_none),
    step_of (revents_at 0 0) [{ ret := 4, errno := 0 }] (env_of recv_none),
    step_of (revents_at 1 POLLIN) [] (env_of recv_none),
    step_of (revents_at 0 0) [] (env_of recv_none),
    step_of (revents_at 0 0) [] (env_of (recv_frame4 (frame_of 1 1 [97]))),
    step_of (revents_at 1 POLLOUT) [] (env_of recv_none),
    step_of (revents_at 0 0) [] (env_of recv_none) ]

/-- Nine calls from the start of the program: listen; a connection is
pending and is accepted as descriptor 4; it sends a download request for the
file "z", which does not exist; `poll` reports it writable and the dispatch
pass handles the write-readiness. -/
def steps_missing_file : List step_env :=
  [ step_of (revents_at 0 0) [] (env_of recv_none),
    step_of (revents_at 0 POLLIN) [] (env_of recv_none),
    step_of (revents_at 0 0) [{ ret := 4, errno := 0 }] (env_of recv_none),
    step_of (revents_at 1 POLLIN) [] (env_of recv_none),
    step_of (revents_at 0 0) [] (env_of recv_none),
    step_of (revents_at 0 0) [] (env_of (recv_frame4 (frame_of 1 1 [122]))),
    step_of (revents_at 1 POLLOUT) [] (env_of recv_none),
    step_of (revents_at 0 0) [] (env_of recv_none),
    step_of (revents_at 0 0) [] (env_of recv_none) ]

/-! # Theorems -/

/-! ## Helper lemmas on the transfer table -/

theorem cstr_nil_iff_headD (a : List Nat) : cstr a = [] ↔ a.headD 0 = 0 := by
  cases a with
  | nil => simp [cstr]
  | cons b t =>
    by_cases h : b = 0 <;> simp [cstr, List.takeWhile_cons, h]

theorem cstr_set_zero (a : List Nat) : cstr (a.set 0 0) = [] := by
  cases a <;> simp [cstr, List.takeWhile_cons]

theorem slot_clear_is_empty (s : file_transfer_t) : slot_is_empty (slot_clear s) := by
  simp [slot_is_empty, slot_clear, cstr_set_zero]

theorem slot_clear_idem (s : file_transfer_t) : slot_clear (slot_clear s) = slot_clear s := by
  cases s with
  | mk fd fp tot name => cases name <;> simp [slot_clear]

theorem file_transfer_list_reset_nil (n : Nat) : file_transfer_list_reset [] n = [] := by
  unfold file_transfer_list_reset
  induction List.range n with
  | nil => rfl
  | cons i r ih => simpa [List.foldl, file_transfer_list_reset_body] using ih

theorem reset_body_foldl_cons (s : file_transfer_t) (rest : List file_transfer_t)
    (l : List Nat) :
    l.foldl file_transfer_list_reset_body (slot_clear s :: rest) = slot_clear s :: rest := by
  induction l with
  | nil => rfl
  | cons i r ih => simpa [List.foldl, file_transfer_list_reset_body, slot_clear_idem] using ih

/-- Whatever the size passed, `file_transfer_list_reset` clears element 0 and
nothing else. -/
theorem file_transfer_list_reset_cons (s : file_transfer_t) (rest : List file_transfer_t)
    (n : Nat) :
    file_transfer_list_reset (s :: rest) (n + 1) = slot_clear s :: rest := by
  unfold file_transfer_list_reset
  rw [List.range_succ_eq_map]
  simp only [List.foldl_cons, file_transfer_list_reset_body]
  exact reset_body_foldl_cons s rest _

theorem add_scan_none (ctx : file_transfer_t) (list : List file_transfer_t)
    (h : ∀ s ∈ list, 0 ≤ s.client_fd) : file_transfer_context_add_scan ctx list = none := by
  induction list with
  | nil => rfl
  | cons s rest ih =>
    have hs : s.client_fd ≥ 0 := h s (List.mem_cons_self _ _)
    have hr := ih (fun x hx => h x (List.mem_cons_of_mem _ hx))
    simp [file_transfer_context_add_scan, hs, hr]

theorem add_scan_some (ctx : file_transfer_t) (list : List file_transfer_t) (k : Nat)
    (s : file_transfer_t) (hk : list[k]? = some s) (hs : s.client_fd < 0)
    (hlow : ∀ j, j < k → ∀ x, list[j]? = some x → 0 ≤ x.client_fd) :
    file_transfer_context_add_scan ctx list = some (list.set k ctx) := by
  induction list generalizing k with
  | nil => simp at hk
  | cons a rest ih =>
    cases k with
    | zero =>
      simp at hk
      subst hk
      have : ¬ a.client_fd ≥ 0 := by omega
      simp [file_transfer_context_add_scan, this]
    | succ k =>
      have ha : a.client_fd ≥ 0 := hlow 0 (Nat.succ_pos k) a (by simp)
      have hk' : rest[k]? = some s := by simpa using hk
      have hr := ih k hk' (fun j hj x hx => hlow (j + 1) (by omega) x (by simpa using hx))
      simp [file_transfer_context_add_scan, ha, hr]

/-- A successful scan fills one slot whose `client_fd` was negative and leaves
the other slots as they were. -/
theorem add_scan_result (ctx : file_transfer_t) (list list' : List file_transfer_t)
    (h : file_transfer_context_add_scan ctx list = some list') :
    ∃ k s, list[k]? = some s ∧ s.client_fd < 0 ∧ list' = list.set k ctx := by
  induction list generalizing list' with
  | nil => simp [file_transfer_context_add_scan] at h
  | cons a rest ih =>
    by_cases ha : a.client_fd ≥ 0
    · simp only [file_transfer_context_add_scan, ha, if_true] at h
      cases hr : file_transfer_context_add_scan ctx rest with
      | none => simp [hr] at h
      | some r =>
        simp [hr] at h
        obtain ⟨k, s, hk, hs, hset⟩ := ih r hr
        exact ⟨k + 1, s, by simpa using hk, hs, by simp [← h, hset]⟩
    · simp only [file_transfer_context_add_scan, ha, if_false] at h
      exact ⟨0, a, by simp, by omega, by simpa using h.symm⟩

/-- C6 (code bug): on the zero-initialised array the server starts with,
`file_transfer_list_reset(list, 4)` clears element 0 only; elements 1 to 3
keep `client_fd = 0` and are not empty. -/
theorem file_transfer_list_reset_initial :
    (file_transfer_list_reset _file_transfer_initial SERVER_STATE_MACHINE_FDS_MAX).map
        (fun s => s.client_fd) = [-1, 0, 0, 0] ∧
    ¬ slot_is_empty ((file_transfer_list_reset _file_transfer_initial
        SERVER_STATE_MACHINE_FDS_MAX).getD 1 file_transfer_zero) := by
  decide

/-- C7: contract of `file_transfer_context_add`. It returns `-EINVAL` when
`ctx.client_fd < 0`, else `-ENODATA` when the filename is empty, else
`-ENOBUFS` when no slot has `client_fd < 0`, the table being unchanged in the
three cases; otherwise it returns 0 and the table is the old one with `ctx`
stored in the lowest-indexed slot whose `client_fd` is negative. -/
theorem file_transfer_context_add_contract (ctx : file_transfer_t)
    (list : List file_transfer_t) :
    (ctx.client_fd < 0 →
      file_transfer_context_add ctx list = (-(EINVAL : Int), list)) ∧
    (0 ≤ ctx.client_fd → cstr ctx.filename = [] →
      file_transfer_context_add ctx list = (-(ENODATA : Int), list)) ∧
    (0 ≤ ctx.client_fd → cstr ctx.filename ≠ [] → (∀ s ∈ list, 0 ≤ s.client_fd) →
      file_transfer_context_add ctx list = (-(ENOBUFS : Int), list)) ∧
    (0 ≤ ctx.client_fd → cstr ctx.filename ≠ [] →
      ∀ (k : Nat) (s : file_transfer_t), list[k]? = some s → s.client_fd < 0 →
        (∀ j, j < k → ∀ x, list[j]? = some x → 0 ≤ x.client_fd) →
        file_transfer_context_add ctx list = (0, list.set k ctx)) := by
  refine ⟨?_, ?_, ?_, ?_⟩
  · intro h
    simp [file_transfer_context_add, h]
  · intro h hn
    have h1 : ¬ ctx.client_fd < 0 := by omega
    have h2 := (cstr_nil_iff_headD ctx.filename).mp hn
    rw [file_transfer_context_add, if_neg h1, if_pos h2]
  · intro h hn hfull
    have h1 : ¬ ctx.client_fd < 0 := by omega
    have h2 : ¬ ctx.filename.headD 0 = 0 := fun hc => hn ((cstr_nil_iff_headD _).mpr hc)
    rw [file_transfer_context_add, if_neg h1, if_neg h2, add_scan_none ctx list hfull]
  · intro h hn k s hk hs hlow
    have h1 : ¬ ctx.client_fd < 0 := by omega
    have h2 : ¬ ctx.filename.headD 0 = 0 := fun hc => hn ((cstr_nil_iff_headD _).mpr hc)
    rw [file_transfer_context_add, if_neg h1, if_neg h2,
      add_scan_some ctx list k s hk hs hlow]

/-- Witness of C7: descriptor 5 asks for "a" while slot 0 is taken by
descriptor 3; the context goes to slot 1. A context with a negative
descriptor is refused with `-EINVAL`. -/
theorem file_transfer_context_add_contract_witness :
    file_transfer_context_add (ctx_of 5 [97]) [ctx_of 3 [98], slot_empty, slot_empty] =
      (0, [ctx_of 3 [98], ctx_of 5 [97], slot_empty]) ∧
    file_transfer_context_add (ctx_of (-1) [97]) [ctx_of 3 [98], slot_empty, slot_empty] =
      (-(EINVAL : Int), [ctx_of 3 [98], slot_empty, slot_empty]) :=
  ⟨(file_transfer_context_add_contract (ctx_of 5 [97])
      [ctx_of 3 [98], slot_empty, slot_empty]).2.2.2 (by decide) (by decide) 1 slot_empty
      (by decide) (by decide)
      (by intro j hj x hx
          have hj0 : j = 0 := by omega
          subst hj0
          simp at hx
          subst hx
          decide),
   (file_transfer_context_add_contract (ctx_of (-1) [97])
      [ctx_of 3 [98], slot_empty, slot_empty]).1 (by decide)⟩

/-- C8: frame of `file_transfer_context_remove`. The table keeps its length;
a slot whose `client_fd` equals `fd` becomes empty and any other slot is
unchanged; when no slot holds `fd` the table is unchanged; removing twice
gives the same table as removing once. -/
theorem file_transfer_context_remove_frame (fd : Int) (list : List file_transfer_t) :
    (file_transfer_context_remove fd list).length = list.length ∧
    (∀ (i : Nat) (s : file_transfer_t), list[i]? = some s →
      (s.client_fd = fd →
        ∃ s', (file_transfer_context_remove fd list)[i]? = some s' ∧ slot_is_empty s') ∧
      (s.client_fd ≠ fd → (file_transfer_context_remove fd list)[i]? = some s)) ∧
    ((∀ s ∈ list, s.client_fd ≠ fd) → file_transfer_context_remove fd list = list) ∧
    file_transfer_context_remove fd (file_transfer_context_remove fd list) =
      file_transfer_context_remove fd list := by
  refine ⟨?_, ?_, ?_, ?_⟩
  · simp [file_transfer_context_remove]
  · intro i s hi
    constructor
    · intro hfd
      exact ⟨slot_clear s, by simp [file_transfer_context_remove, hi, hfd],
        slot_clear_is_empty s⟩
    · intro hfd
      simp [file_transfer_context_remove, hi, hfd]
  · intro h
    unfold file_transfer_context_remove
    conv_rhs => rw [← List.map_id list]
    apply List.map_congr_left
    intro s hs
    simp [h s hs]
  · unfold file_transfer_context_remove
    rw [List.map_map]
    apply List.map_congr_left
    intro s _
    by_cases h : s.client_fd = fd
    · by_cases h2 : (slot_clear s).client_fd = fd
      · simp [h, h2, slot_clear_idem]
      · simp [h, h2]
    · simp [h]

/-- Witness of C8: removing descriptor 7, which no slot holds, leaves the
table as it is; removing descriptor 5 twice is removing it once. -/
theorem file_transfer_context_remove_frame_witness :
    file_transfer_context_remove 7 [ctx_of 3 [98], ctx_of 5 [97], slot_empty] =
      [ctx_of 3 [98], ctx_of 5 [97], slot_empty] ∧
    file_transfer_context_remove 5
        (file_transfer_context_remove 5 [ctx_of 3 [98], ctx_of 5 [97], slot_empty]) =
      file_transfer_context_remove 5 [ctx_of 3 [98], ctx_of 5 [97], slot_empty] :=
  ⟨(file_transfer_context_remove_frame 7 [ctx_of 3 [98], ctx_of 5 [97], slot_empty]).2.2.1
      (by decide),
   (file_transfer_context_remove_frame 5 [ctx_of 3 [98], ctx_of 5 [97], slot_empty]).2.2.2⟩

/-! ## Uniqueness of identifiers in the transfer table -/

theorem count_fd_cons (fd : Int) (s : file_transfer_t) (t : List file_transfer_t) :
    count_fd fd (s :: t) = count_fd fd t + (if s.client_fd = fd then 1 else 0) := by
  simp [count_fd, List.countP_cons]

theorem count_fd_remove_le (fd fd' : Int) (h : 0 ≤ fd') (t : List file_transfer_t) :
    count_fd fd' (file_transfer_context_remove fd t) ≤ count_fd fd' t := by
  induction t with
  | nil => simp [file_transfer_context_remove, count_fd]
  | cons s rest ih =>
    have hcons : file_transfer_context_remove fd (s :: rest) =
        (if s.client_fd ≠ fd then s else slot_clear s) :: file_transfer_context_remove fd rest := by
      simp [file_transfer_context_remove]
    rw [hcons, count_fd_cons, count_fd_cons]
    by_cases hs : s.client_fd = fd
    · have hc : ¬ (slot_clear s).client_fd = fd' := by
        simp only [slot_clear]; omega
      simp only [hs, ne_eq, not_true_eq_false, if_false, hc]
      split <;> omega
    · simp only [ne_eq, hs, not_false_eq_true, if_true]
      omega

theorem count_fd_set (fd' : Int) (h : 0 ≤ fd') (ctx : file_transfer_t)
    (t : List file_transfer_t) (k : Nat) (s : file_transfer_t)
    (hk : t[k]? = some s) (hs : s.client_fd < 0) :
    count_fd fd' (t.set k ctx) = count_fd fd' t + (if ctx.client_fd = fd' then 1 else 0) := by
  induction t generalizing k with
  | nil => simp at hk
  | cons a rest ih =>
    cases k with
    | zero =>
      simp at hk
      subst hk
      have ha : ¬ a.client_fd = fd' := by omega
      simp [List.set, count_fd_cons, ha]
    | succ k =>
      have hk' : rest[k]? = some s := by simpa using hk
      simp only [List.set, count_fd_cons, ih k hk']
      omega

theorem table_unique_remove (fd : Int) (t : List file_transfer_t) (h : table_unique t) :
    table_unique (file_transfer_context_remove fd t) :=
  fun fd' hfd' => le_trans (count_fd_remove_le fd fd' hfd' t) (h fd' hfd')

theorem table_unique_add (ctx : file_transfer_t) (t : List file_transfer_t)
    (h : table_unique t) (hfresh : count_fd ctx.client_fd t = 0) :
    table_unique (file_transfer_context_add ctx t).2 := by
  unfold file_transfer_context_add
  split
  · exact h
  · split
    · exact h
    · cases hscan : file_transfer_context_add_scan ctx t with
      | none => exact h
      | some t' =>
        obtain ⟨k, s, hk, hs, hset⟩ := add_scan_result ctx t t' hscan
        intro fd' hfd'
        simp only [hset]
        rw [count_fd_set fd' hfd' ctx t k s hk hs]
        by_cases hc : ctx.client_fd = fd'
        · subst hc
          simp [hfresh]
        · simpa [hc] using h fd' hfd'

theorem table_unique_of_negative (t : List file_transfer_t)
    (h : ∀ s ∈ t, s.client_fd < 0) : table_unique t := by
  intro fd hfd
  have : count_fd fd t = 0 := by
    unfold count_fd
    rw [List.countP_eq_zero]
    intro s hs
    have := h s hs
    simp only [decide_eq_true_eq]
    omega
  omega

/-- C2 (code bug): in the table the server starts from, the zero-initialised
array after `file_transfer_list_reset` (the table the state machine holds
after its first call), three slots have `client_fd = 0`, so the table does
not have at most one slot per identifier `fd >= 0`. From that table a second
request on descriptor 5 is refused with `-ENOBUFS` and leaves one slot for
descriptor 5. -/
theorem table_unique_fails_at_start :
    (server_run server_start [step_of (revents_at 0 0) [] (env_of recv_none)]).table =
      table_start ∧
    count_fd 0 table_start = 3 ∧
    ¬ table_unique table_start ∧
    file_transfer_context_add (ctx_of 5 [98])
        (file_transfer_context_add (ctx_of 5 [97]) table_start).2 =
      (-(ENOBUFS : Int), (file_transfer_context_add (ctx_of 5 [97]) table_start).2) ∧
    count_fd 5 (table_run table_start
      [table_op.add (ctx_of 5 [97]), table_op.add (ctx_of 5 [98])]) = 1 := by
  refine ⟨by decide, by decide, ?_, by decide, by decide⟩
  intro h
  have := h 0 (by decide)
  revert this
  decide

/-! ## The transfer engine on a readable file with accepting sends -/

theorem server_write_accept (o : send_outcome) (n : Nat) (h : o.ret = (n : Int)) :
    server_write o = (n : Int) := by
  unfold server_write
  have : ¬ o.ret < 0 := by omega
  simp [this, h]

theorem file_read_ok (fs : file_system) (key : List Nat) (f : file_obj) (t : Nat)
    (hfile : fs (file_path FILE_TRANSFER_TABLE key) = Except.ok f)
    (hread : f.read_error = false) (hclose : f.close_errno = 0)
    (ht : t ≤ f.content.length) :
    _file_read fs FILE_TRANSFER_TABLE key FILE_TRANSFER_BUFF_READ_SIZE t false =
      { err := (((f.content.drop t).take 32).length : Int),
        data := (f.content.drop t).take 32,
        eof := decide (((f.content.drop t).take 32).length < 32) } := by
  have hsz := f.size_ok
  have h1 : ¬ t ≥ 9223372036854775808 := by omega
  unfold _file_read
  rw [hfile]
  simp only [h1, if_false, hread, hclose, FILE_TRANSFER_BUFF_READ_SIZE]
  by_cases hl : ((f.content.drop t).take 32).length < 32 <;> simp [hl]


theorem file_transfer_call (fs : file_system) (snd : send_env) (ft : file_transfer_t)
    (f : file_obj)
    (hfile : fs (file_path FILE_TRANSFER_TABLE ft.filename) = Except.ok f)
    (hread : f.read_error = false) (hclose : f.close_errno = 0)
    (hdata : ∀ b, (snd.data b).ret = (b.length : Int))
    (hmarker : ∀ b, (snd.marker b).ret = (b.length : Int))
    (ht : ft.transferred_total ≤ f.content.length) :
    file_transfer fs snd ft =
      { err := if ((f.content.drop ft.transferred_total).take 32).length < 32 then 0 else 32,
        ctx := { ft with transferred_total :=
          ft.transferred_total + ((f.content.drop ft.transferred_total).take 32).length },
        data_send :=
          if ((f.content.drop ft.transferred_total).take 32).length = 0 then none
          else some ((f.content.drop ft.transferred_total).take 32,
            (((f.content.drop ft.transferred_total).take 32).length : Int)),
        marker_send :=
          if ((f.content.drop ft.transferred_total).take 32).length < 32 then
            some (((f.content.drop ft.transferred_total).take 32).length, 1)
          else none } := by
  have hsz := f.size_ok
  unfold file_transfer
  rw [file_read_ok fs ft.filename f ft.transferred_total hfile hread hclose ht]
  generalize hg : (f.content.drop ft.transferred_total).take 32 = got
  have hlen : got.length ≤ 32 := by rw [← hg]; simp
  have hlen2 : ft.transferred_total + got.length ≤ f.content.length := by
    rw [← hg]; simp; omega
  have hneg : ¬ ((got.length : Int) < 0) := by omega
  simp only [hneg, if_false, Int.toNat_ofNat, List.take_length]
  by_cases h0 : got.length = 0
  · have hm := server_write_accept (snd.marker [0]) 1 (by simpa using hmarker [0])
    simp [h0, hm]
    omega
  · have hd := server_write_accept (snd.data got) got.length (hdata got)
    have h0' : ¬ (got.length : Int) = 0 := by omega
    have hmod : (ft.transferred_total + got.length) % 18446744073709551616 =
        ft.transferred_total + got.length := Nat.mod_eq_of_lt (by omega)
    by_cases h32 : got.length < 32
    · have hmk : ((got.length : Int) % 256).toNat = got.length := by omega
      have hm := server_write_accept (snd.marker [got.length]) 1
        (by simpa using hmarker [got.length])
      simp [h0, h0', hd, hmod, h32, hmk, hm]
    · have : got.length = 32 := by omega
      simp [h0, h0', hd, hmod, h32, this]
      omega



theorem file_transfer_call_last (fs : file_system) (snd : send_env) (ft : file_transfer_t)
    (f : file_obj)
    (hfile : fs (file_path FILE_TRANSFER_TABLE ft.filename) = Except.ok f)
    (hread : f.read_error = false) (hclose : f.close_errno = 0)
    (hdata : ∀ b, (snd.data b).ret = (b.length : Int))
    (hmarker : ∀ b, (snd.marker b).ret = (b.length : Int))
    (ht : ft.transferred_total ≤ f.content.length)
    (hrem : f.content.length - ft.transferred_total < 32) :
    (file_transfer fs snd ft).err = 0 ∧
    (file_transfer fs snd ft).ctx.transferred_total = f.content.length ∧
    (file_transfer fs snd ft).data_send =
      (if f.content.length - ft.transferred_total = 0 then none
       else some (f.content.drop ft.transferred_total,
         ((f.content.length - ft.transferred_total : Nat) : Int))) ∧
    (file_transfer fs snd ft).marker_send =
      some (f.content.length - ft.transferred_total, 1) := by
  have htake : (f.content.drop ft.transferred_total).take 32 =
      f.content.drop ft.transferred_total := by
    apply List.take_of_length_le; simp; omega
  have hlen : (f.content.drop ft.transferred_total).length =
      f.content.length - ft.transferred_total := by simp
  rw [file_transfer_call fs snd ft f hfile hread hclose hdata hmarker ht, htake, hlen]
  refine ⟨?_, ?_, ?_, ?_⟩
  · simp [hrem]
  · simp only; omega
  · rfl
  · simp [hrem]

theorem file_transfer_call_full (fs : file_system) (snd : send_env) (ft : file_transfer_t)
    (f : file_obj)
    (hfile : fs (file_path FILE_TRANSFER_TABLE ft.filename) = Except.ok f)
    (hread : f.read_error = false) (hclose : f.close_errno = 0)
    (hdata : ∀ b, (snd.data b).ret = (b.length : Int))
    (hmarker : ∀ b, (snd.marker b).ret = (b.length : Int))
    (ht : ft.transferred_total ≤ f.content.length)
    (hrem : 32 ≤ f.content.length - ft.transferred_total) :
    (file_transfer fs snd ft).err = 32 ∧
    (file_transfer fs snd ft).ctx =
      { ft with transferred_total := ft.transferred_total + 32 } ∧
    (file_transfer fs snd ft).data_send =
      some ((f.content.drop ft.transferred_total).take 32, 32) ∧
    (file_transfer fs snd ft).marker_send = none := by
  have hlen : ((f.content.drop ft.transferred_total).take 32).length = 32 := by
    simp; omega
  rw [file_transfer_call fs snd ft f hfile hread hclose hdata hmarker ht, hlen]
  refine ⟨?_, ?_, ?_, ?_⟩ <;> simp

theorem file_transfer_repeat_run (fs : file_system) (snd : send_env) (f : file_obj)
    (hread : f.read_error = false) (hclose : f.close_errno = 0)
    (hdata : ∀ b, (snd.data b).ret = (b.length : Int))
    (hmarker : ∀ b, (snd.marker b).ret = (b.length : Int))
    (fuel : Nat) (ft : file_transfer_t)
    (hfile : fs (file_path FILE_TRANSFER_TABLE ft.filename) = Except.ok f)
    (ht : ft.transferred_total ≤ f.content.length)
    (hfuel : (f.content.length - ft.transferred_total) / 32 + 1 ≤ fuel) :
    ∃ init last, file_transfer_repeat fs snd fuel ft = init ++ [last] ∧
      (∀ r ∈ init, 0 < r.err ∧ r.marker_send = none) ∧
      last.err = 0 ∧
      last.marker_send = some ((f.content.length - ft.transferred_total) % 32, 1) ∧
      last.ctx.transferred_total = f.content.length ∧
      data_send_count (init ++ [last]) = (f.content.length - ft.transferred_total + 31) / 32 ∧
      delivered_stream (init ++ [last]) = f.content.drop ft.transferred_total := by
  induction fuel generalizing ft with
  | zero => omega
  | succ fuel ih =>
    by_cases hrem : f.content.length - ft.transferred_total < 32
    · obtain ⟨he, hc, hd, hm⟩ :=
        file_transfer_call_last fs snd ft f hfile hread hclose hdata hmarker ht hrem
      refine ⟨[], file_transfer fs snd ft, ?_, ?_, he, ?_, hc, ?_, ?_⟩
      · simp [file_transfer_repeat, he]
      · simp
      · rw [hm, Nat.mod_eq_of_lt hrem]
      · simp only [data_send_count, List.nil_append, List.filter_cons, hd]
        by_cases h0 : f.content.length - ft.transferred_total = 0
        · simp [h0]
        · simp [h0]; omega
      · simp only [delivered_stream, List.nil_append, bytes_delivered, hd]
        by_cases h0 : f.content.length - ft.transferred_total = 0
        · have : f.content.length ≤ ft.transferred_total := by omega
          simp [h0, List.drop_eq_nil_of_le this]
        · simp only [h0, if_false, Int.toNat_ofNat, List.append_nil]
          apply List.take_of_length_le; simp
    · have hrem' : 32 ≤ f.content.length - ft.transferred_total := by omega
      obtain ⟨he, hc, hd, hm⟩ :=
        file_transfer_call_full fs snd ft f hfile hread hclose hdata hmarker ht hrem'
      have h1 : fs (file_path FILE_TRANSFER_TABLE (file_transfer fs snd ft).ctx.filename) =
          Except.ok f := by rw [hc]; exact hfile
      have h2 : (file_transfer fs snd ft).ctx.transferred_total = ft.transferred_total + 32 := by
        rw [hc]
      obtain ⟨init, last, hrun, hinit, hlast, hmark, htot, hcount, hstream⟩ :=
        ih (file_transfer fs snd ft).ctx h1 (by omega) (by omega)
      rw [h2] at hmark hcount hstream
      refine ⟨file_transfer fs snd ft :: init, last, ?_, ?_, hlast, ?_, htot, ?_, ?_⟩
      · have : ¬ (file_transfer fs snd ft).err ≤ 0 := by omega
        simp only [file_transfer_repeat, this, if_false, hrun, List.cons_append]
      · intro r hr
        rcases List.mem_cons.mp hr with h | h
        · subst h; exact ⟨by omega, hm⟩
        · exact hinit r h
      · rw [hmark]
        congr 2
        omega
      · simp only [data_send_count, List.cons_append, List.filter_cons, hd,
          Option.isSome_some, if_true, List.length_cons] at hcount ⊢
        rw [hcount]
        omega
      · have h32 : (32 : Int).toNat = 32 := rfl
        have hb : bytes_delivered (file_transfer fs snd ft) =
            (f.content.drop ft.transferred_total).take 32 := by
          simp only [bytes_delivered, hd, h32, List.take_take, min_self]
        show bytes_delivered (file_transfer fs snd ft) ++ delivered_stream (init ++ [last]) = _
        rw [hb, hstream, ← List.drop_drop]
        exact List.take_append_drop 32 _


/-- C3: round trip of the data stream. For a file of `N` bytes that is opened,
read and closed without error, a context starting at `transferred_total = 0`
and sends that accept all the bytes offered, repeating `file_transfer` (with
enough fuel for `N / 32 + 1` calls) ends with a call that returns 0, every
earlier call having returned a positive value; exactly `ceil(N / 32)` data
sends are made, the bytes they deliver, put end to end, are the bytes of the
file, and `transferred_total` ends equal to `N`. -/
theorem file_transfer_round_trip (fs : file_system) (snd : send_env) (f : file_obj)
    (ft : file_transfer_t) (fuel : Nat)
    (hfile : fs (file_path FILE_TRANSFER_TABLE ft.filename) = Except.ok f)
    (hread : f.read_error = false) (hclose : f.close_errno = 0)
    (hdata : ∀ b, (snd.data b).ret = (b.length : Int))
    (hmarker : ∀ b, (snd.marker b).ret = (b.length : Int))
    (hstart : ft.transferred_total = 0)
    (hfuel : f.content.length / FILE_TRANSFER_BUFF_READ_SIZE + 1 ≤ fuel) :
    ∃ init last, file_transfer_repeat fs snd fuel ft = init ++ [last] ∧
      (∀ r ∈ init, 0 < r.err) ∧ last.err = 0 ∧
      data_send_count (init ++ [last]) =
        (f.content.length + (FILE_TRANSFER_BUFF_READ_SIZE - 1)) / FILE_TRANSFER_BUFF_READ_SIZE ∧
      delivered_stream (init ++ [last]) = f.content ∧
      last.ctx.transferred_total = f.content.length := by
  simp only [FILE_TRANSFER_BUFF_READ_SIZE] at hfuel ⊢
  obtain ⟨init, last, hrun, hinit, hlast, _, htot, hcount, hstream⟩ :=
    file_transfer_repeat_run fs snd f hread hclose hdata hmarker fuel ft hfile
      (by omega) (by omega)
  rw [hstart] at hcount hstream
  exact ⟨init, last, hrun, fun r hr => (hinit r hr).1, hlast, by simpa using hcount,
    by simpa using hstream, htot⟩

/-- Witness of C3: the forty-byte file "b" with three calls allowed. -/
theorem file_transfer_round_trip_witness :
    ∃ init last, file_transfer_repeat fs_demo send_all 3 (ctx_of 4 [98]) = init ++ [last] ∧
      (∀ r ∈ init, 0 < r.err) ∧ last.err = 0 ∧
      data_send_count (init ++ [last]) =
        (file_forty.content.length + (FILE_TRANSFER_BUFF_READ_SIZE - 1)) /
          FILE_TRANSFER_BUFF_READ_SIZE ∧
      delivered_stream (init ++ [last]) = file_forty.content ∧
      last.ctx.transferred_total = file_forty.content.length :=
  file_transfer_round_trip fs_demo send_all file_forty (ctx_of 4 [98]) 3
    (by rfl) (by rfl) (by rfl) (fun _ => rfl) (fun _ => rfl) (by rfl) (by decide)

/-- C4 (code bug): for the five-byte file "a", with sends that accept all the
bytes offered, the single `file_transfer` call delivers the five bytes and
then sends one terminal byte, whose value is 5 (the number of bytes read),
not 0. -/
theorem file_transfer_marker_five :
    file_transfer_repeat fs_demo send_all 2 (ctx_of 4 [97]) =
      [{ err := 0,
         ctx := { ctx_of 4 [97] with transferred_total := 5 },
         data_send := some ([104, 101, 108, 108, 111], 5),
         marker_send := some (5, 1) }] := by
  decide

/-! ## The dispatch pass -/

theorem add_table_of_neg (ctx : file_transfer_t) (t : List file_transfer_t)
    (h : (file_transfer_context_add ctx t).1 < 0) :
    (file_transfer_context_add ctx t).2 = t := by
  unfold file_transfer_context_add at h ⊢
  split
  · rfl
  · split
    · rfl
    · split
      · rfl
      · rename_i heq
        rw [if_neg (by assumption), if_neg (by assumption), heq] at h
        simp at h

theorem release_result (fd : Int) (events revents : Nat) (table : List file_transfer_t)
    (err : Int) (tr : List io_event) (hfd : 0 ≤ fd) (herr : err < 0) :
    connection_release { fd := fd, events := events, revents := revents } table err tr =
      { slot := { fd := -1, events := 0, revents := revents },
        table := file_transfer_context_remove fd table,
        err := err, trace := tr ++ [io_event.close fd], brk := false } := by
  have : fd ≥ 0 := hfd
  simp [connection_release, herr, _client_connection_resources_release,
    _client_connection_close, this]

theorem remove_no_context (fd : Int) (hfd : 0 ≤ fd) (t : List file_transfer_t) :
    ∀ s ∈ file_transfer_context_remove fd t, s.client_fd ≠ fd := by
  intro s hs
  simp only [file_transfer_context_remove, List.mem_map] at hs
  obtain ⟨a, _, ha⟩ := hs
  by_cases h : a.client_fd = fd
  · simp only [h, ne_eq, not_true_eq_false, if_false] at ha
    rw [← ha]
    simp only [slot_clear]
    omega
  · simp only [ne_eq, h, not_false_eq_true, if_true] at ha
    rw [← ha]; exact h

theorem slot_read_path_failure (env : pass_env) (f : pollfd) (table : List file_transfer_t)
    (hfd : 0 ≤ f.fd) (h : read_path_failure env f table) :
    ∃ err rev, err < 0 ∧ slot_events_process env f table =
      { slot := { fd := -1, events := 0, revents := rev },
        table := file_transfer_context_remove f.fd table,
        err := err, trace := [io_event.close f.fd], brk := false } := by
  obtain ⟨fd, events, revents⟩ := f
  obtain ⟨hnval, h⟩ := h
  simp only at hfd hnval h
  unfold slot_events_process
  simp only
  rw [if_neg (by simpa using hnval)]
  rcases h with h | ⟨he, hh, hp, hin, h⟩
  · have hneg : -(( EIO : Nat) : Int) < 0 := by decide
    rw [if_pos h, release_result fd events revents table _ [] hfd hneg]
    exact ⟨_, _, hneg, rfl⟩
  · rw [if_neg (by simp [he, hh]), if_neg (by simpa using hp), if_pos hin]
    unfold slot_pollin
    unfold received_packet at h
    simp only at h ⊢
    generalize server_read (env.recv fd) (List.replicate PACKET_MAX_SIZE 0)
      PACKET_MAX_SIZE = rd at h ⊢
    by_cases h1 : rd.1 ≤ 0
    · have hneg : (if rd.1 = 0 then -((ENETRESET : Nat) : Int) else rd.1) < 0 := by
        split
        · decide
        · omega
      rw [if_pos h1, release_result fd events _ table _ [] hfd hneg]
      exact ⟨_, _, hneg, rfl⟩
    · rw [if_neg h1]
      by_cases h2 : rd.2.getD 0 0 ≠ env.cmd_download_file
      · have hneg : -((ENOMSG : Nat) : Int) < 0 := by decide
        rw [if_pos h2, release_result fd events _ table _ [] hfd hneg]
        exact ⟨_, _, hneg, rfl⟩
      · rw [if_neg h2]
        have h3 : match download_context fd rd.2 with
            | none => False
            | some ctx => (file_transfer_context_add ctx table).1 < 0 := by
          rcases h with h | h | h
          · exact absurd h h1
          · exact absurd h h2
          · exact h
        cases hctx : download_context fd rd.2 with
        | none => simp [hctx] at h3
        | some ctx =>
          simp only [hctx] at h3 ⊢
          rw [if_pos h3, release_result fd events _ _ _ [] hfd h3, add_table_of_neg _ _ h3]
          exact ⟨_, _, h3, rfl⟩

theorem slot_write_path_failure (env : pass_env) (f : pollfd) (table : List file_transfer_t)
    (hfd : 0 ≤ f.fd) (h : write_path_failure env f table) :
    ∃ err rev, err < 0 ∧ slot_events_process env f table =
      { slot := { fd := -1, events := 0, revents := rev },
        table := file_transfer_context_remove f.fd
          (table.set 0 (file_transfer env.fs (env.send f.fd)
            (table.headD file_transfer_zero)).ctx),
        err := err,
        trace := transfer_trace f.fd (file_transfer env.fs (env.send f.fd)
            (table.headD file_transfer_zero)) ++ [io_event.close f.fd],
        brk := true } := by
  obtain ⟨hnval, he, hh, hp, hin, hout, hft⟩ := h
  unfold slot_events_process
  rw [if_neg (by simpa using hnval), if_neg (by simp [he, hh]), if_neg (by simpa using hp),
    if_neg (by simpa using hin), if_pos hout]
  unfold slot_pollout
  have : f.fd ≥ 0 := hfd
  simp only [hft, if_true, _client_connection_resources_release, _client_connection_close,
    this]
  exact ⟨_, _, hft, rfl⟩

theorem set_getD_self (l : List pollfd) (i : Nat) (d : pollfd) : l.set i (l.getD i d) = l := by
  induction l generalizing i with
  | nil => rfl
  | cons a t ih =>
    cases i with
    | zero => rfl
    | succ i =>
      show a :: t.set i (t.getD i d) = a :: t
      rw [ih i]

theorem getD_set_ne (l : List pollfd) (i j : Nat) (x d : pollfd) (h : i ≠ j) :
    (l.set i x).getD j d = l.getD j d := by
  simp [List.getD_eq_getElem?_getD, List.getElem?_set_ne h]

theorem slot_quiet (env : pass_env) (f : pollfd) (table : List file_transfer_t)
    (h : f.revents = 0) :
    slot_events_process env f table =
      { slot := f, table := table, err := 0, trace := [], brk := false } := by
  simp [slot_events_process, h]

theorem events_loop_step_quiet (env : pass_env) (j : Nat) (st : pass_state)
    (h : (st.fds.getD j pollfd_zero).revents = 0) :
    events_loop_step env j st = ({ st with err := 0 }, false) := by
  unfold events_loop_step
  rw [slot_quiet env _ st.table h]
  simp only [set_getD_self, List.append_nil, Bool.or_false]

theorem events_loop_quiet (env : pass_env) (js : List Nat) (st : pass_state)
    (h : ∀ j ∈ js, (st.fds.getD j pollfd_zero).revents = 0) :
    events_loop env js st = { st with err := if js = [] then st.err else 0 } := by
  induction js generalizing st with
  | nil => rfl
  | cons j rest ih =>
    have hj := h j (List.mem_cons_self _ _)
    have e := ih { st with err := 0 } (fun k hk => h k (List.mem_cons_of_mem _ hk))
    simp only [events_loop, events_loop_step_quiet env j st hj, Bool.false_eq_true,
      if_false, e]
    split <;> simp

theorem events_loop_append_quiet (env : pass_env) (pre rest : List Nat) (st : pass_state)
    (h : ∀ j ∈ pre, (st.fds.getD j pollfd_zero).revents = 0) :
    events_loop env (pre ++ rest) st =
      events_loop env rest { st with err := if pre = [] then st.err else 0 } := by
  induction pre generalizing st with
  | nil => rfl
  | cons j pre ih =>
    have hj := h j (List.mem_cons_self _ _)
    have e := ih { st with err := 0 } (fun k hk => h k (List.mem_cons_of_mem _ hk))
    simp only [ite_self] at e
    simp only [List.cons_append, events_loop, events_loop_step_quiet env j st hj,
      Bool.false_eq_true, if_false]
    simpa using e

/-- A pass in which only slot `i` may have events: the loop is the handling of
slot `i`; its `err` is returned when the loop is left there or when no slot
follows, and is 0 otherwise. -/
theorem events_loop_single (env : pass_env) (pre post : List Nat) (i : Nat)
    (fds : List pollfd) (table : List file_transfer_t)
    (hpre : ∀ j ∈ pre, (fds.getD j pollfd_zero).revents = 0)
    (hpost : ∀ j ∈ post, j ≠ i ∧ (fds.getD j pollfd_zero).revents = 0) :
    events_loop env (pre ++ i :: post) { fds := fds, table := table, err := 0, trace := [] } =
      { fds := fds.set i (slot_events_process env (fds.getD i pollfd_zero) table).slot,
        table := (slot_events_process env (fds.getD i pollfd_zero) table).table,
        err := if (slot_events_process env (fds.getD i pollfd_zero) table).brk = true ∨ post = []
          then (slot_events_process env (fds.getD i pollfd_zero) table).err else 0,
        trace := (slot_events_process env (fds.getD i pollfd_zero) table).trace,
        undefined := (slot_events_process env (fds.getD i pollfd_zero) table).undefined } := by
  rw [events_loop_append_quiet env pre (i :: post) _ hpre]
  simp only [ite_self, events_loop, events_loop_step, List.nil_append, Bool.false_or]
  generalize slot_events_process env (fds.getD i pollfd_zero) table = r
  by_cases hb : r.brk = true
  · simp [hb]
  · simp only [hb, if_false, false_or]
    rw [events_loop_quiet env post _ (fun j hj => by
      have := hpost j hj
      simp only
      rw [getD_set_ne _ _ _ _ _ (Ne.symm this.1)]
      exact this.2)]
    by_cases hp : post = [] <;> simp [hp]

theorem pass_single (env : pass_env) (i : Nat) (hi : 1 ≤ i ∧ i ≤ 3)
    (fds : List pollfd) (table : List file_transfer_t)
    (hquiet : ∀ j, j ≠ i → (fds.getD j pollfd_zero).revents = 0) :
    _client_connection_events_process env fds table =
      { fds := fds.set i (slot_events_process env (fds.getD i pollfd_zero) table).slot,
        table := (slot_events_process env (fds.getD i pollfd_zero) table).table,
        err := if (slot_events_process env (fds.getD i pollfd_zero) table).brk = true ∨ i = 3
          then (slot_events_process env (fds.getD i pollfd_zero) table).err else 0,
        trace := (slot_events_process env (fds.getD i pollfd_zero) table).trace,
        undefined := (slot_events_process env (fds.getD i pollfd_zero) table).undefined } := by
  have hl : List.range' (SERVER_SOCKET_LISTEN_INDEX + 1)
      (SERVER_STATE_MACHINE_FDS_MAX - (SERVER_SOCKET_LISTEN_INDEX + 1)) = [1, 2, 3] := by decide
  unfold _client_connection_events_process
  rw [hl]
  obtain ⟨h1, h3⟩ := hi
  have hcases : i = 1 ∨ i = 2 ∨ i = 3 := by omega
  rcases hcases with h | h | h <;> subst h
  · have := events_loop_single env [] [2, 3] 1 fds table (by simp)
      (by intro j hj; simp at hj; rcases hj with h | h <;> subst h <;>
        exact ⟨by decide, hquiet _ (by decide)⟩)
    simpa using this
  · have := events_loop_single env [1] [3] 2 fds table
      (by intro j hj; simp at hj; subst hj; exact hquiet _ (by decide))
      (by intro j hj; simp at hj; subst hj; exact ⟨by decide, hquiet _ (by decide)⟩)
    simpa using this
  · have := events_loop_single env [1, 2] [] 3 fds table
      (by intro j hj; simp at hj; rcases hj with h | h <;> subst h <;>
        exact hquiet _ (by decide))
      (by simp)
    simpa using this

theorem closed_fds_append (a b : List io_event) :
    closed_fds (a ++ b) = closed_fds a ++ closed_fds b := by
  induction a with
  | nil => rfl
  | cons e t ih => cases e <;> simp [closed_fds, ih]

theorem closed_fds_transfer_trace (fd : Int) (r : transfer_result) :
    closed_fds (transfer_trace fd r) = [] := by
  unfold transfer_trace
  rcases r.data_send with _ | ⟨c, x⟩ <;> rcases r.marker_send with _ | ⟨m, y⟩ <;> rfl

/-- C5 (code bug): two connection-local failures, each on the table the
server starts from. Descriptor 4, in slot 1, asks for the missing file "z":
the request is registered, and on write-readiness `file_transfer` fails with
`-ENOENT`; the connection is released and closed, but the pass returns `-2`
and the next state is `SERVER_FATAL_ERROR`. The peer of descriptor 6, in the
last client slot, closes: the connection is released and closed, but the pass
returns `-ENETRESET` and the next state is `SERVER_FATAL_ERROR`. The first
failure as a run of the state machine from the start of the program
(`steps_missing_file`): the state reached is `SERVER_FATAL_ERROR`. -/
theorem connection_failure_fatal :
    _client_connection_events_process (env_of (recv_frame4 (frame_of 1 1 [122])))
        (fds_of { fd := 4, events := POLLIN, revents := POLLIN } slot_unused slot_unused)
        table_start =
      { fds := fds_of { fd := 4, events := POLLIN ||| POLLOUT, revents := 0 }
          slot_unused slot_unused,
        table := [ctx_of 4 [122], file_transfer_zero, file_transfer_zero, file_transfer_zero],
        err := 0, trace := [] } ∧
    server_state_machine_process_case (env_of recv_none)
        (fds_of { fd := 4, events := POLLIN ||| POLLOUT, revents := POLLOUT }
          slot_unused slot_unused)
        [ctx_of 4 [122], file_transfer_zero, file_transfer_zero, file_transfer_zero] =
      (server_state_t.SERVER_FATAL_ERROR,
       { fds := fds_of slot_unused slot_unused slot_unused,
         table := [slot_clear (ctx_of 4 [122]), file_transfer_zero, file_transfer_zero,
           file_transfer_zero],
         err := -2, trace := [io_event.close 4] }) ∧
    server_state_machine_process_case (env_of recv_closed6)
        (fds_of { fd := 4, events := POLLIN, revents := 0 }
          { fd := 5, events := POLLIN, revents := 0 }
          { fd := 6, events := POLLIN, revents := POLLIN })
        table_start =
      (server_state_t.SERVER_FATAL_ERROR,
       { fds := fds_of { fd := 4, events := POLLIN, revents := 0 }
           { fd := 5, events := POLLIN, revents := 0 } slot_unused,
         table := table_start,
         err := -102, trace := [io_event.close 6] }) ∧
    run_ok server_start steps_missing_file = true ∧
    (server_run server_start steps_missing_file).state =
      server_state_t.SERVER_FATAL_ERROR ∧
    (server_run server_start steps_missing_file).fds =
      fds_of slot_unused slot_unused slot_unused := by
  decide

/-- What the loop does on a connection-local failure, for every client slot
index `i` whose descriptor is open. Error or hangup readiness, a peer close
or receive error, an unrecognised command, a failed registration and a
failed `file_transfer` each close that descriptor and no other, mark the slot
closed and leave no context of that descriptor in the transfer table. For
the failures outside the write-readiness branch the table is
`file_transfer_context_remove fd` of the old one and the loop goes on. In a
pass where no other slot has events, only slot `i` of `_fds` changes; if
moreover the failure is outside the write-readiness branch and `i` is not the
last client slot, the pass returns 0. Invalid-descriptor readiness stops the
pass with `-ENOENT`, releasing and closing nothing. -/
theorem connection_failure_contained (env : pass_env) (fds : List pollfd)
    (table : List file_transfer_t) (i : Nat) (hi : 1 ≤ i ∧ i ≤ 3)
    (hfd : 0 ≤ (fds.getD i pollfd_zero).fd) :
    (read_path_failure env (fds.getD i pollfd_zero) table ∨
      write_path_failure env (fds.getD i pollfd_zero) table →
        (slot_events_process env (fds.getD i pollfd_zero) table).slot.fd = -1 ∧
        (slot_events_process env (fds.getD i pollfd_zero) table).slot.events = 0 ∧
        closed_fds (slot_events_process env (fds.getD i pollfd_zero) table).trace =
          [(fds.getD i pollfd_zero).fd] ∧
        (∀ s ∈ (slot_events_process env (fds.getD i pollfd_zero) table).table,
          s.client_fd ≠ (fds.getD i pollfd_zero).fd) ∧
        (slot_events_process env (fds.getD i pollfd_zero) table).err < 0) ∧
    (read_path_failure env (fds.getD i pollfd_zero) table →
        (slot_events_process env (fds.getD i pollfd_zero) table).table =
          file_transfer_context_remove (fds.getD i pollfd_zero).fd table ∧
        (slot_events_process env (fds.getD i pollfd_zero) table).brk = false) ∧
    ((∀ j, j ≠ i → (fds.getD j pollfd_zero).revents = 0) →
        (_client_connection_events_process env fds table).fds =
          fds.set i (slot_events_process env (fds.getD i pollfd_zero) table).slot ∧
        (_client_connection_events_process env fds table).table =
          (slot_events_process env (fds.getD i pollfd_zero) table).table ∧
        (_client_connection_events_process env fds table).trace =
          (slot_events_process env (fds.getD i pollfd_zero) table).trace ∧
        (read_path_failure env (fds.getD i pollfd_zero) table → i < 3 →
          (_client_connection_events_process env fds table).err = 0 ∧
          (server_state_machine_process_case env fds table).1 =
            server_state_t.SERVER_POLL_FOR_EVENTS) ∧
        ((fds.getD i pollfd_zero).revents &&& POLLNVAL ≠ 0 →
          _client_connection_events_process env fds table =
            { fds := fds, table := table, err := -(ENOENT : Int), trace := [] } ∧
          (server_state_machine_process_case env fds table).1 =
            server_state_t.SERVER_FATAL_ERROR)) := by
  refine ⟨?_, ?_, ?_⟩
  · rintro (h | h)
    · obtain ⟨err, rev, herr, hr⟩ := slot_read_path_failure env _ table hfd h
      rw [hr]
      exact ⟨rfl, rfl, rfl, remove_no_context _ hfd table, herr⟩
    · obtain ⟨err, rev, herr, hr⟩ := slot_write_path_failure env _ table hfd h
      rw [hr]
      refine ⟨rfl, rfl, ?_, remove_no_context _ hfd _, herr⟩
      simp only [closed_fds_append, closed_fds_transfer_trace]
      rfl
  · intro h
    obtain ⟨err, rev, herr, hr⟩ := slot_read_path_failure env _ table hfd h
    rw [hr]
    exact ⟨rfl, rfl⟩
  · intro hquiet
    have hp := pass_single env i hi fds table hquiet
    refine ⟨by rw [hp], by rw [hp], by rw [hp], ?_, ?_⟩
    · intro h hlt
      obtain ⟨err, rev, herr, hr⟩ := slot_read_path_failure env _ table hfd h
      have he : (_client_connection_events_process env fds table).err = 0 := by
        rw [hp, hr]
        have : ¬ i = 3 := by omega
        simp [this]
      exact ⟨he, by simp [server_state_machine_process_case, he]⟩
    · intro hn
      have hs : slot_events_process env (fds.getD i pollfd_zero) table =
          { slot := fds.getD i pollfd_zero, table := table, err := -(ENOENT : Int),
            trace := [], brk := true } := by
        unfold slot_events_process
        rw [if_pos hn]
      have hst : _client_connection_events_process env fds table =
          { fds := fds, table := table, err := -(ENOENT : Int), trace := [] } := by
        rw [hp, hs]
        simp only [set_getD_self, true_or, if_true]
      refine ⟨hst, ?_⟩
      simp [server_state_machine_process_case, hst, ENOENT]

/-- C9 (code bug): descriptor 4, in slot 1, has asked for the empty file "e".
On write-readiness the pass sends the terminal byte 0, `file_transfer`
returns 0, the slot goes back to read-readiness only and stays open, but the
context of descriptor 4 is still in the transfer table. -/
theorem events_process_keeps_context :
    _client_connection_events_process (env_of recv_none)
        (fds_of { fd := 4, events := POLLIN ||| POLLOUT, revents := POLLOUT }
          slot_unused slot_unused)
        [ctx_of 4 [101], slot_empty, slot_empty, slot_empty] =
      { fds := fds_of { fd := 4, events := POLLIN, revents := 0 } slot_unused slot_unused,
        table := [ctx_of 4 [101], slot_empty, slot_empty, slot_empty],
        err := 0,
        trace := [io_event.send 4 [0] 1] } ∧
    count_fd 4 (_client_connection_events_process (env_of recv_none)
        (fds_of { fd := 4, events := POLLIN ||| POLLOUT, revents := POLLOUT }
          slot_unused slot_unused)
        [ctx_of 4 [101], slot_empty, slot_empty, slot_empty]).table = 1 := by
  decide

/-! ## The read-readiness branch: filename of a download request -/

theorem copy_size_small (length : Nat) (h : length ≤ 32) :
    copy_size length = length ∧ copy_size length < FILE_TRANSFER_NAME_SIZE_MAX ∧
    PACKET_HEADER_SIZE + copy_size length ≤ PACKET_MAX_SIZE := by
  have h1 : length < FILE_TRANSFER_NAME_SIZE_MAX := by
    show length < 32 + 1
    omega
  have h2 : copy_size length = length := by
    unfold copy_size
    rw [if_pos h1]
  rw [h2]
  refine ⟨rfl, h1, ?_⟩
  show 2 + length ≤ 32 + 2 + 0
  omega

theorem copy_size_large (length : Nat) (h : 33 ≤ length) : copy_size length = 33 := by
  have h1 : ¬ length < FILE_TRANSFER_NAME_SIZE_MAX := by
    show ¬ length < 32 + 1
    omega
  unfold copy_size
  rw [if_neg h1]
  rfl

theorem buffer_write_length (buf : List Nat) (offset : Nat) (b : List Nat)
    (h : offset + b.length ≤ buf.length) : (buffer_write buf offset b).length = buf.length := by
  simp only [buffer_write, List.length_append, List.length_take, List.length_drop]
  omega

theorem server_read_loop_length (size : Nat) (recvs : List recv_outcome) (buf : List Nat)
    (offset : Nat) (total : Int) (hbuf : buf.length = size) (hoff : offset ≤ size) :
    (server_read_loop size recvs buf offset total).2.length = size := by
  induction recvs generalizing buf offset total with
  | nil => simpa [server_read_loop] using hbuf
  | cons o rest ih =>
    cases o with
    | failed errno =>
      simp only [server_read_loop]
      split <;> exact hbuf
    | bytes b =>
      simp only [server_read_loop]
      split
      · exact hbuf
      · have hg : (b.take (size - offset)).length ≤ size - offset := by simp
        apply ih
        · rw [buffer_write_length _ _ _ (by omega)]; exact hbuf
        · split <;> omega

theorem received_packet_length (env : pass_env) (f : pollfd) :
    (received_packet env f).2.length = PACKET_MAX_SIZE := by
  unfold received_packet server_read
  exact server_read_loop_length _ _ _ _ _ (by simp) (Nat.zero_le _)

theorem cstr_append_zero (a b : List Nat) : cstr (a ++ 0 :: b) = cstr a := by
  induction a with
  | nil => simp [cstr, List.takeWhile_cons]
  | cons x t ih =>
    simp only [cstr] at ih ⊢
    by_cases hx : x = 0
    · simp [List.takeWhile_cons, hx]
    · simp [List.takeWhile_cons, hx, ih]

/-- For a declared length `L <= 32` the filename array is the first `L`
payload bytes followed by zeros. -/
theorem download_filename_small (data : List Nat) (hlen : data.length = PACKET_MAX_SIZE)
    (hL : data.getD 1 0 ≤ 32) :
    download_filename data =
      some ((data.drop PACKET_HEADER_SIZE).take (data.getD 1 0) ++
        0 :: List.replicate (32 - data.getD 1 0) 0) := by
  simp only [PACKET_MAX_SIZE, PACKET_HEADER_SIZE, PACKET_CRC_SIZE] at hlen ⊢
  have hc := copy_size_small (data.getD 1 0) hL
  unfold download_filename
  have hc2 := hc.2
  rw [hc.1] at hc2
  rw [hc.1, if_pos ⟨hc2.2, hc2.1⟩]
  simp only [PACKET_HEADER_SIZE, FILE_TRANSFER_NAME_SIZE_MAX]
  generalize data.getD 1 0 = L at hL
  have hsl : ((data.drop 2).take L).length = L := by simp; omega
  rw [hsl]
  obtain ⟨k, hk⟩ : ∃ k, 32 + 1 - L = k + 1 := ⟨32 - L, by omega⟩
  have hk2 : 32 - L = k := by omega
  rw [hk, hk2, List.replicate_succ, List.set_append_right _ _ (by omega)]
  simp [hsl]

/-- For a declared length `L >= 33` the copy runs outside its arrays. -/
theorem download_filename_large (data : List Nat) (hL : 33 ≤ data.getD 1 0) :
    download_filename data = none := by
  unfold download_filename
  rw [copy_size_large _ hL]
  have h : ¬ (PACKET_HEADER_SIZE + 33 ≤ PACKET_MAX_SIZE ∧ 33 < FILE_TRANSFER_NAME_SIZE_MAX) := by
    decide
  simp only [h, if_false]

theorem cstr_length_le (a : List Nat) : (cstr a).length ≤ a.length := by
  unfold cstr
  exact (List.takeWhile_sublist _).length_le

theorem add_into_free_slot (ctx : file_transfer_t) (list : List file_transfer_t) (k : Nat)
    (s : file_transfer_t) (hfd : 0 ≤ ctx.client_fd) (hname : ¬ ctx.filename.headD 0 = 0)
    (hk : list[k]? = some s) (hs : s.client_fd < 0)
    (hlow : ∀ j, j < k → ∀ x, list[j]? = some x → 0 ≤ x.client_fd) :
    file_transfer_context_add ctx list = (0, list.set k ctx) := by
  have h1 : ¬ ctx.client_fd < 0 := by omega
  rw [file_transfer_context_add, if_neg h1, if_neg hname,
    add_scan_some ctx list k s hk hs hlow]

theorem add_empty_name (ctx : file_transfer_t) (list : List file_transfer_t)
    (hfd : 0 ≤ ctx.client_fd) (hname : ctx.filename.headD 0 = 0) :
    file_transfer_context_add ctx list = (-(ENODATA : Int), list) := by
  have h1 : ¬ ctx.client_fd < 0 := by omega
  rw [file_transfer_context_add, if_neg h1, if_pos hname]

/-- The first byte of the filename array built from a frame with `L <= 32`:
it is zero exactly when `L = 0` or the first payload byte is zero. -/
theorem download_name_head (data : List Nat) (hlen : data.length = PACKET_MAX_SIZE) (L : Nat) :
    (((data.drop PACKET_HEADER_SIZE).take L ++ 0 :: List.replicate (32 - L) 0).headD 0 = 0) ↔
      (L = 0 ∨ data.getD 2 0 = 0) := by
  simp only [PACKET_MAX_SIZE, PACKET_HEADER_SIZE, PACKET_CRC_SIZE] at hlen ⊢
  match data, hlen with
  | a :: b :: c :: rest, _ =>
    cases L with
    | zero => simp
    | succ m => simp

/-- The read-readiness branch on a slot that received a `DOWNLOAD_FILE` frame
with declared length at most 32: the context is built and handed to
`file_transfer_context_add`. -/
theorem slot_pollin_download (env : pass_env) (f : pollfd) (table : List file_transfer_t)
    (hnval : f.revents &&& POLLNVAL = 0) (herr : f.revents &&& POLLERR = 0)
    (hhup : f.revents &&& POLLHUP = 0) (hpri : f.revents &&& POLLPRI = 0)
    (hin : f.revents &&& POLLIN ≠ 0)
    (hrecv : 0 < (received_packet env f).1)
    (hcmd : (received_packet env f).2.getD 0 0 = env.cmd_download_file)
    (hL : (received_packet env f).2.getD 1 0 ≤ 32)
    (a : Int × List file_transfer_t)
    (ha : file_transfer_context_add
      { client_fd := f.fd, fp := none, transferred_total := 0,
        filename := ((received_packet env f).2.drop PACKET_HEADER_SIZE).take
          ((received_packet env f).2.getD 1 0) ++
          0 :: List.replicate (32 - (received_packet env f).2.getD 1 0) 0 } table = a) :
    slot_events_process env f table =
      if a.1 < 0 then
        connection_release { f with revents := f.revents &&& (SHORT_MASK ^^^ POLLIN) }
          a.2 a.1 []
      else
        connection_release
          { fd := f.fd, events := f.events ||| POLLOUT,
            revents := f.revents &&& (SHORT_MASK ^^^ POLLIN) } a.2 a.1 [] := by
  have hlen := received_packet_length env f
  have hname := download_filename_small _ hlen hL
  unfold slot_events_process
  rw [if_neg (by simpa using hnval), if_neg (by simp [herr, hhup]),
    if_neg (by simpa using hpri), if_pos hin]
  unfold slot_pollin
  unfold received_packet at hrecv hcmd hname ha
  simp only
  rw [if_neg (by omega), if_neg (by simpa using hcmd)]
  simp only [download_context, hname, Option.map_some', ha]

/-- C10 (amended): a `DOWNLOAD_FILE` frame with declared length `L <= 32`
received on an open slot. When `L >= 1` and the first payload byte is not
zero, and the transfer table has a free slot, the frame is accepted: `err` is
0, write-readiness is armed, and the context stored in the lowest free slot
has the descriptor of the slot, `transferred_total = 0` and, as filename, the
first `min L 32` payload bytes cut at the first zero byte. When `L = 0` or
the first payload byte is zero, the frame is rejected with `-ENODATA`: no
context is registered, the contexts of the descriptor are removed and the
slot is closed. -/
theorem download_frame_registered (env : pass_env) (f : pollfd)
    (table : List file_transfer_t)
    (hfd : 0 ≤ f.fd)
    (hnval : f.revents &&& POLLNVAL = 0) (herr : f.revents &&& POLLERR = 0)
    (hhup : f.revents &&& POLLHUP = 0) (hpri : f.revents &&& POLLPRI = 0)
    (hin : f.revents &&& POLLIN ≠ 0)
    (hrecv : 0 < (received_packet env f).1)
    (hcmd : (received_packet env f).2.getD 0 0 = env.cmd_download_file)
    (hL : (received_packet env f).2.getD 1 0 ≤ 32) :
    (1 ≤ (received_packet env f).2.getD 1 0 → (received_packet env f).2.getD 2 0 ≠ 0 →
      ∀ (k : Nat) (s : file_transfer_t), table[k]? = some s → s.client_fd < 0 →
        (∀ j, j < k → ∀ x, table[j]? = some x → 0 ≤ x.client_fd) →
        ∃ name,
          slot_events_process env f table =
            { slot := { fd := f.fd, events := f.events ||| POLLOUT,
                        revents := f.revents &&& (SHORT_MASK ^^^ POLLIN) },
              table := table.set k
                { client_fd := f.fd, fp := none, transferred_total := 0, filename := name },
              err := 0, trace := [], brk := false } ∧
          cstr name = cstr (((received_packet env f).2.drop PACKET_HEADER_SIZE).take
            (min ((received_packet env f).2.getD 1 0) 32)) ∧
          (cstr name).length ≤ 32) ∧
    ((received_packet env f).2.getD 1 0 = 0 ∨ (received_packet env f).2.getD 2 0 = 0 →
      slot_events_process env f table =
        { slot := { fd := -1, events := 0,
                    revents := f.revents &&& (SHORT_MASK ^^^ POLLIN) },
          table := file_transfer_context_remove f.fd table,
          err := -(ENODATA : Int), trace := [io_event.close f.fd], brk := false }) := by
  have hlen := received_packet_length env f
  constructor
  · intro h1 hfirst k s hk hs hlow
    have hhead := (download_name_head _ hlen ((received_packet env f).2.getD 1 0)).not.mpr
      (by intro hc; rcases hc with hc | hc <;> [omega; exact hfirst hc])
    refine ⟨((received_packet env f).2.drop PACKET_HEADER_SIZE).take
      ((received_packet env f).2.getD 1 0) ++
      0 :: List.replicate (32 - (received_packet env f).2.getD 1 0) 0, ?_, ?_, ?_⟩
    · rw [slot_pollin_download env f table hnval herr hhup hpri hin hrecv hcmd hL _
        (add_into_free_slot _ table k s hfd hhead hk hs hlow)]
      simp [connection_release]
    · rw [cstr_append_zero, Nat.min_eq_left hL]
    · rw [cstr_append_zero]
      refine le_trans (cstr_length_le _) ?_
      simp only [List.length_take]
      omega
  · intro h0
    have hhead := (download_name_head _ hlen ((received_packet env f).2.getD 1 0)).mpr h0
    rw [slot_pollin_download env f table hnval herr hhup hpri hin hrecv hcmd hL _
      (add_empty_name _ table hfd hhead)]
    have hneg : -((ENODATA : Nat) : Int) < 0 := by decide
    rw [if_pos hneg]
    exact release_result f.fd f.events _ table _ [] hfd hneg

/-- C10 (as stated, false): a `DOWNLOAD_FILE` frame with declared length 0
(payload byte "a" present) received on descriptor 4, the transfer table being
the one the server starts from, is rejected: the connection is released and
closed and no context is registered. -/
theorem download_frame_length_zero :
    _client_connection_events_process (env_of (recv_frame4 (frame_of 1 0 [97])))
        (fds_of { fd := 4, events := POLLIN, revents := POLLIN } slot_unused slot_unused)
        table_start =
      { fds := fds_of slot_unused slot_unused slot_unused,
        table := table_start, err := 0, trace := [io_event.close 4] } ∧
    (slot_events_process (env_of (recv_frame4 (frame_of 1 0 [97])))
        { fd := 4, events := POLLIN, revents := POLLIN } table_start).err =
      -(ENODATA : Int) := by
  decide

/-- Witness of C10 (amended): declared length 32 and 32 payload bytes
"A".."`" on descriptor 4 with the table the server starts from: the 32 bytes
are the filename. -/
theorem download_frame_registered_witness :
    ∃ name,
      slot_events_process (env_of (recv_frame4 (frame_of 1 32 (List.range' 65 32))))
          { fd := 4, events := POLLIN, revents := POLLIN } table_start =
        { slot := { fd := 4, events := POLLIN ||| POLLOUT,
                    revents := POLLIN &&& (SHORT_MASK ^^^ POLLIN) },
          table := table_start.set 0
            { client_fd := 4, fp := none, transferred_total := 0, filename := name },
          err := 0, trace := [], brk := false } ∧
      cstr name = cstr (((received_packet
          (env_of (recv_frame4 (frame_of 1 32 (List.range' 65 32))))
          { fd := 4, events := POLLIN, revents := POLLIN }).2.drop PACKET_HEADER_SIZE).take
        (min ((received_packet (env_of (recv_frame4 (frame_of 1 32 (List.range' 65 32))))
          { fd := 4, events := POLLIN, revents := POLLIN }).2.getD 1 0) 32)) ∧
      (cstr name).length ≤ 32 :=
  (download_frame_registered (env_of (recv_frame4 (frame_of 1 32 (List.range' 65 32))))
    { fd := 4, events := POLLIN, revents := POLLIN } table_start
    (by decide) (by decide) (by decide) (by decide) (by decide) (by decide) (by decide)
    (by decide) (by decide)).1 (by decide) (by decide) 0 slot_empty (by decide) (by decide)
    (by intro j hj; omega)

/-- For a declared length of 33 or more the read-readiness branch runs into
undefined behaviour (the copy leaves its arrays, see `copy_size`). -/
theorem download_frame_overrun (env : pass_env) (f : pollfd) (table : List file_transfer_t)
    (hnval : f.revents &&& POLLNVAL = 0) (herr : f.revents &&& POLLERR = 0)
    (hhup : f.revents &&& POLLHUP = 0) (hpri : f.revents &&& POLLPRI = 0)
    (hin : f.revents &&& POLLIN ≠ 0)
    (hrecv : 0 < (received_packet env f).1)
    (hcmd : (received_packet env f).2.getD 0 0 = env.cmd_download_file)
    (hL : 33 ≤ (received_packet env f).2.getD 1 0) :
    (slot_events_process env f table).undefined = true := by
  have hname := download_filename_large _ hL
  unfold slot_events_process
  rw [if_neg (by simpa using hnval), if_neg (by simp [herr, hhup]),
    if_neg (by simpa using hpri), if_pos hin]
  unfold slot_pollin
  unfold received_packet at hrecv hcmd hname
  simp only
  rw [if_neg (by omega), if_neg (by simpa using hcmd)]
  simp only [download_context, hname, Option.map_none']

/-! ## Would-block on the data send -/

/-- In every call, `transferred_total` afterwards is its value before plus the
number of data bytes actually sent (as a `size_t`). -/
theorem file_transfer_total (fs : file_system) (snd : send_env) (ft : file_transfer_t)
    (hsize : ft.transferred_total < 18446744073709551616) :
    (file_transfer fs snd ft).ctx.transferred_total =
      (ft.transferred_total + bytes_sent_count (file_transfer fs snd ft)) %
        18446744073709551616 := by
  have h0 : ft.transferred_total = (ft.transferred_total + 0) % 18446744073709551616 := by
    rw [Nat.add_zero, Nat.mod_eq_of_lt hsize]
  unfold file_transfer bytes_sent_count
  generalize _file_read fs FILE_TRANSFER_TABLE ft.filename FILE_TRANSFER_BUFF_READ_SIZE
    ft.transferred_total false = rd
  generalize 18446744073709551616 = M at *
  simp only
  by_cases h1 : rd.err < 0
  · rw [if_pos h1]
    exact h0
  · rw [if_neg h1]
    by_cases h2 : rd.err = 0
    · have hne : ¬ rd.err ≠ 0 := fun h => h h2
      rw [if_neg hne, if_neg hne, if_pos (le_refl (0 : Int)), if_pos (Or.inl h2)]
      rfl
    · have hne : rd.err ≠ 0 := h2
      rw [if_pos hne, if_pos hne]
      generalize server_write (snd.data (List.take rd.err.toNat rd.data)) = sr
      by_cases h3 : sr ≥ 0
      · rw [if_pos h3]
        by_cases h4 : rd.err = 0 ∨ rd.eof = true
        · rw [if_pos h4]
        · rw [if_neg h4]
      · rw [if_neg h3]
        show ft.transferred_total = (ft.transferred_total + sr.toNat) % M
        rw [Int.toNat_of_nonpos (by omega)]
        exact h0

/-- The part of the would-block rule that the code keeps: when a full chunk
was read (so the end of the file was not met) and the data send would block,
`transferred_total` is unchanged, no terminal byte is sent and the call
returns the chunk size, not 0. -/
theorem file_transfer_would_block_full (fs : file_system) (snd : send_env)
    (ft : file_transfer_t) (f : file_obj)
    (hfile : fs (file_path FILE_TRANSFER_TABLE ft.filename) = Except.ok f)
    (hread : f.read_error = false) (hclose : f.close_errno = 0)
    (hrem : ft.transferred_total + 32 ≤ f.content.length)
    (hblock : server_write (snd.data ((f.content.drop ft.transferred_total).take 32)) = 0) :
    file_transfer fs snd ft =
      { err := 32, ctx := ft,
        data_send := some ((f.content.drop ft.transferred_total).take 32, 0),
        marker_send := none } := by
  have hsz := f.size_ok
  have hlen : ((f.content.drop ft.transferred_total).take 32).length = 32 := by
    simp; omega
  unfold file_transfer
  rw [file_read_ok fs ft.filename f ft.transferred_total hfile hread hclose (by omega)]
  simp only [hlen]
  have e1 : ¬ (((32 : Nat) : Int) < 0) := by omega
  have e2 : (((32 : Nat) : Int)) ≠ 0 := by omega
  have e3 : (((32 : Nat) : Int)).toNat = 32 := rfl
  have e4 : List.take 32 (List.take 32 (List.drop ft.transferred_total f.content)) =
      List.take 32 (List.drop ft.transferred_total f.content) := by
    rw [List.take_take]; simp
  rw [if_neg e1, if_pos e2, if_pos e2, e3, e4, hblock, if_pos (le_refl (0 : Int))]
  have e5 : ¬ ((((32 : Nat) : Int)) = 0 ∨ decide ((32 : Nat) < 32) = true) := by simp
  rw [if_neg e5]
  have e6 : (ft.transferred_total + (0 : Int).toNat) % 18446744073709551616 =
      ft.transferred_total := by
    show (ft.transferred_total + 0) % 18446744073709551616 = ft.transferred_total
    rw [Nat.add_zero]
    exact Nat.mod_eq_of_lt (by omega)
  rw [e6]
  rfl

/-- C11 (code bug): the five-byte file "a" is read in one short chunk, which
meets the end of the file, and the data send would block. `transferred_total`
stays 0, but the terminal byte (value 5) is sent and `file_transfer` returns
0; the dispatch pass then takes the transfer as complete and goes back to
read-readiness only, so the five bytes are never sent. -/
theorem file_transfer_would_block_at_eof :
    file_transfer fs_demo send_block (ctx_of 4 [97]) =
      { err := 0, ctx := ctx_of 4 [97],
        data_send := some ([104, 101, 108, 108, 111], 0),
        marker_send := some (5, 1) } ∧
    _client_connection_events_process env_block
        (fds_of { fd := 4, events := POLLIN ||| POLLOUT, revents := POLLOUT }
          slot_unused slot_unused)
        [ctx_of 4 [97], slot_empty, slot_empty, slot_empty] =
      { fds := fds_of { fd := 4, events := POLLIN, revents := 0 } slot_unused slot_unused,
        table := [ctx_of 4 [97], slot_empty, slot_empty, slot_empty],
        err := 0,
        trace := [io_event.send 4 [104, 101, 108, 108, 111] 0, io_event.send 4 [5] 1] } := by
  decide

/-! ## Accepting connections -/

/-- Whatever is pending after it, a successful `accept` is the only one of the
call: the callback runs once and the call returns 0. -/
theorem server_connections_accept_one {σ : Type} (client_fd_add : Int → Nat → σ → σ)
    (events : Nat) (o : accept_outcome) (rest : List accept_outcome) (st : σ)
    (h : 0 ≤ o.ret) :
    server_connections_accept client_fd_add events (o :: rest) st =
      (0, client_fd_add o.ret events st, rest) := by
  have h1 : ¬ o.ret < 0 := by omega
  simp [server_connections_accept, server_connections_accept_loop, h1]

/-- C12 (code bug): with two connections pending (descriptors 4 and 5), one
call of `server_connections_accept` accepts descriptor 4 only: the callback
runs once, slot 1 of `_fds` gets descriptor 4, the call returns 0 and
descriptor 5 is still pending. -/
theorem server_connections_accept_two_pending :
    server_connections_accept callback_record POLLIN accepts_two [] =
      (0, [(4, POLLIN)], [{ ret := 5, errno := 0 }]) ∧
    server_connections_accept (_client_connection_add_callback (fun _ => 0)) POLLIN
        accepts_two (fds_of slot_unused slot_unused slot_unused, []) =
      (0, (fds_of { fd := 4, events := POLLIN, revents := 0 } slot_unused slot_unused, []),
       [{ ret := 5, errno := 0 }]) := by
  decide

/-! ## Bounds of the filename copy -/

/-- C13 (code bug): for the declared length 33 (and up to 255) `copy_size` is
33, the size of `filename`: it is not below 33, so the terminator write
`filename[copy_size] = 0` has index 33 in a 33-byte array, and
`PACKET_HEADER_SIZE + copy_size` is 35, above `PACKET_MAX_SIZE = 34`, so the
copy reads one byte beyond `packet_rx.data`. -/
theorem copy_size_out_of_bounds :
    copy_size 33 = 33 ∧ copy_size 255 = 33 ∧
    file_transfer_zero.filename.length = 33 ∧
    ¬ copy_size 33 < FILE_TRANSFER_NAME_SIZE_MAX ∧
    ¬ PACKET_HEADER_SIZE + copy_size 33 ≤ PACKET_MAX_SIZE := by
  decide

/-! ## Isolation of connections in the states the program reaches -/

theorem pollout_armed (e : Nat) : (e ||| POLLOUT) &&& POLLOUT ≠ 0 := by
  intro h
  have h2 := congrArg (fun x => x.testBit 2) h
  have h4 : Nat.testBit 4 2 = true := by decide
  simp [POLLOUT, Nat.testBit_and, Nat.testBit_or, h4] at h2

/-- The shape of the result of `file_transfer`: the context keeps all its
fields but `transferred_total`, and a data send, if any, offers the bytes
read. -/
theorem file_transfer_shape (fs : file_system) (snd : send_env) (c : file_transfer_t) :
    (∃ total, (file_transfer fs snd c).ctx = { c with transferred_total := total }) ∧
    ((file_transfer fs snd c).data_send = none ∨
      (0 < (_file_read fs FILE_TRANSFER_TABLE c.filename FILE_TRANSFER_BUFF_READ_SIZE
          c.transferred_total false).err ∧
       ∃ sr, (file_transfer fs snd c).data_send =
        some ((_file_read fs FILE_TRANSFER_TABLE c.filename FILE_TRANSFER_BUFF_READ_SIZE
            c.transferred_total false).data.take
          (_file_read fs FILE_TRANSFER_TABLE c.filename FILE_TRANSFER_BUFF_READ_SIZE
            c.transferred_total false).err.toNat, sr))) := by
  unfold file_transfer
  generalize _file_read fs FILE_TRANSFER_TABLE c.filename FILE_TRANSFER_BUFF_READ_SIZE
    c.transferred_total false = rd
  simp only
  by_cases h1 : rd.err < 0
  · rw [if_pos h1]
    exact ⟨⟨c.transferred_total, rfl⟩, Or.inl rfl⟩
  · rw [if_neg h1]
    by_cases h2 : rd.err = 0
    · have hne : ¬ rd.err ≠ 0 := fun h => h h2
      rw [if_neg hne, if_neg hne, if_pos (le_refl (0 : Int)), if_pos (Or.inl h2)]
      exact ⟨⟨_, rfl⟩, Or.inl rfl⟩
    · have hne : rd.err ≠ 0 := h2
      have hpos : 0 < rd.err := by omega
      rw [if_pos hne, if_pos hne]
      generalize server_write (snd.data (List.take rd.err.toNat rd.data)) = sr
      by_cases h3 : sr ≥ 0
      · rw [if_pos h3]
        by_cases h4 : rd.err = 0 ∨ rd.eof = true
        · rw [if_pos h4]
          exact ⟨⟨_, rfl⟩, Or.inr ⟨hpos, sr, rfl⟩⟩
        · rw [if_neg h4]
          exact ⟨⟨_, rfl⟩, Or.inr ⟨hpos, sr, rfl⟩⟩
      · rw [if_neg h3]
        exact ⟨⟨c.transferred_total, rfl⟩, Or.inr ⟨hpos, sr, rfl⟩⟩

theorem file_transfer_ctx_client_fd (fs : file_system) (snd : send_env)
    (c : file_transfer_t) : (file_transfer fs snd c).ctx.client_fd = c.client_fd := by
  obtain ⟨t, ht⟩ := (file_transfer_shape fs snd c).1
  rw [ht]

/-- When `_file_read` returns a positive value, the bytes it stored are what
the file named by `key` holds at `offset`, at most `size` bytes, and the value
is their number. -/
theorem file_read_positive (fs : file_system) (key : List Nat) (size offset : Nat)
    (h : 0 < (_file_read fs FILE_TRANSFER_TABLE key size offset false).err) :
    ∃ fobj, fs (file_path FILE_TRANSFER_TABLE key) = Except.ok fobj ∧
      (_file_read fs FILE_TRANSFER_TABLE key size offset false).data =
        (fobj.content.drop offset).take size ∧
      (_file_read fs FILE_TRANSFER_TABLE key size offset false).err =
        (((fobj.content.drop offset).take size).length : Int) := by
  unfold _file_read at h ⊢
  cases hfs : fs (file_path FILE_TRANSFER_TABLE key) with
  | error errno =>
    rw [hfs] at h
    simp only at h
    omega
  | ok fobj =>
    rw [hfs] at h
    simp only at h ⊢
    refine ⟨fobj, rfl, ?_⟩
    by_cases hoff : offset ≥ 9223372036854775808
    · rw [if_pos hoff] at h
      simp [EINVAL] at h
    · rw [if_neg hoff] at h ⊢
      simp only at h ⊢
      refine ⟨trivial, ?_⟩
      by_cases hc : fobj.close_errno ≠ 0
      · rw [if_pos hc] at h; omega
      · rw [if_neg hc] at h ⊢
        by_cases hr : fobj.read_error = true
        · rw [if_pos hr] at h
          simp [ EIO] at h
        · rw [if_neg hr]

/-- A data chunk offered by `file_transfer` is what the file named by the
context holds at the context's `transferred_total`, at most 32 bytes. -/
theorem file_transfer_data_chunk (fs : file_system) (snd : send_env) (c : file_transfer_t)
    (chunk : List Nat) (res : Int)
    (h : (file_transfer fs snd c).data_send = some (chunk, res)) :
    ∃ fobj, fs (file_path FILE_TRANSFER_TABLE c.filename) = Except.ok fobj ∧
      chunk = (fobj.content.drop c.transferred_total).take FILE_TRANSFER_BUFF_READ_SIZE := by
  rcases (file_transfer_shape fs snd c).2 with hn | ⟨hpos, sr, hs⟩
  · rw [hn] at h; cases h
  · obtain ⟨fobj, hfs, hdata, herr⟩ := file_read_positive fs c.filename _ _ hpos
    refine ⟨fobj, hfs, ?_⟩
    rw [hs] at h
    simp only [Option.some.injEq, Prod.mk.injEq] at h
    rw [← h.1, hdata, herr, Int.toNat_ofNat, List.take_length]

theorem remove_tail_zero (fd : Int) (c : file_transfer_t) (rest : List file_transfer_t)
    (hrest : ∀ s ∈ rest, s.client_fd = 0) (hfd : fd ≠ 0) :
    file_transfer_context_remove fd (c :: rest) =
      (if c.client_fd ≠ fd then c else slot_clear c) :: rest := by
  unfold file_transfer_context_remove
  rw [List.map_cons]
  congr 1
  conv_rhs => rw [← List.map_id rest]
  apply List.map_congr_left
  intro s hs
  have h0 := hrest s hs
  have : s.client_fd ≠ fd := by rw [h0]; exact fun h => hfd h.symm
  simp [this]

theorem add_head_effect (ctx c : file_transfer_t) (rest : List file_transfer_t)
    (hrest : ∀ s ∈ rest, s.client_fd = 0) :
    ((file_transfer_context_add ctx (c :: rest)).1 < 0 ∧
      (file_transfer_context_add ctx (c :: rest)).2 = c :: rest) ∨
    (file_transfer_context_add ctx (c :: rest) = (0, ctx :: rest) ∧
      c.client_fd < 0 ∧ 0 ≤ ctx.client_fd) := by
  unfold file_transfer_context_add
  by_cases h1 : ctx.client_fd < 0
  · rw [if_pos h1]; left; refine ⟨?_, rfl⟩; show -((EINVAL : Nat) : Int) < 0; decide
  · rw [if_neg h1]
    by_cases h2 : ctx.filename.headD 0 = 0
    · rw [if_pos h2]; left; refine ⟨?_, rfl⟩; show -((ENODATA : Nat) : Int) < 0; decide
    · rw [if_neg h2]
      by_cases hc : c.client_fd ≥ 0
      · have hnone : file_transfer_context_add_scan ctx (c :: rest) = none := by
          apply add_scan_none
          intro s hs
          rcases List.mem_cons.mp hs with h | h
          · rw [h]; exact hc
          · rw [hrest s h]
        rw [hnone]
        left; refine ⟨?_, rfl⟩; show -((ENOBUFS : Nat) : Int) < 0; decide
      · have hsome : file_transfer_context_add_scan ctx (c :: rest) = some (ctx :: rest) := by
          simp [file_transfer_context_add_scan, hc]
        rw [hsome]
        right; exact ⟨rfl, by omega, by omega⟩

theorem resources_release_keeps (g : pollfd) (c : file_transfer_t)
    (rest : List file_transfer_t) (hrest : ∀ s ∈ rest, s.client_fd = 0) (hg0 : g.fd ≠ 0)
    (hga : g.events &&& POLLOUT ≠ 0 → 0 ≤ g.fd ∧ c.client_fd = g.fd) :
    ∃ c', (_client_connection_resources_release g (c :: rest)).2.1 = c' :: rest ∧
      ((_client_connection_resources_release g (c :: rest)).1.fd = g.fd ∨
        (_client_connection_resources_release g (c :: rest)).1.fd = -1) ∧
      ((_client_connection_resources_release g (c :: rest)).1.events &&& POLLOUT ≠ 0 →
        0 ≤ (_client_connection_resources_release g (c :: rest)).1.fd ∧
        c'.client_fd = (_client_connection_resources_release g (c :: rest)).1.fd) ∧
      (∀ y : Int, 0 ≤ y → y ≠ g.fd → c.client_fd = y → c'.client_fd = y) := by
  unfold _client_connection_resources_release _client_connection_close
  simp only
  rw [remove_tail_zero g.fd c rest hrest hg0]
  refine ⟨_, rfl, ?_, ?_, ?_⟩
  · by_cases hg : g.fd ≥ 0
    · rw [if_pos hg]; right; rfl
    · rw [if_neg hg]; left; rfl
  · by_cases hg : g.fd ≥ 0
    · rw [if_pos hg]
      intro h
      exact absurd (by decide : (0 : Nat) &&& POLLOUT = 0) h
    · rw [if_neg hg]
      intro h
      exact absurd (hga h).1 (by omega)
  · intro y hy hne hcy
    have : c.client_fd ≠ g.fd := by rw [hcy]; exact hne
    rw [if_pos this]
    exact hcy

theorem connection_release_keeps (f g : pollfd) (c cm : file_transfer_t)
    (rest : List file_transfer_t) (err : Int) (tr : List io_event)
    (hrest : ∀ s ∈ rest, s.client_fd = 0) (hfg : g.fd = f.fd) (hg0 : g.fd ≠ 0)
    (hga : g.events &&& POLLOUT ≠ 0 → 0 ≤ g.fd ∧ cm.client_fd = g.fd)
    (hcm : ∀ y : Int, 0 ≤ y → y ≠ f.fd → c.client_fd = y → cm.client_fd = y) :
    slot_keeps f c rest (connection_release g (cm :: rest) err tr) := by
  unfold connection_release
  by_cases he : err < 0
  · rw [if_pos he]
    obtain ⟨c', h1, h2, h3, h4⟩ := resources_release_keeps g cm rest hrest hg0 hga
    refine ⟨c', h1, ?_, h3, ?_⟩
    · rw [← hfg]; exact h2
    · intro y hy hne hcy
      exact h4 y hy (by rw [hfg]; exact hne) (hcm y hy hne hcy)
  · rw [if_neg he]
    exact ⟨cm, rfl, Or.inl hfg, hga, hcm⟩

theorem download_context_fd (fd : Int) (data : List Nat) (ctx : file_transfer_t)
    (h : download_context fd data = some ctx) : ctx.client_fd = fd := by
  unfold download_context at h
  cases hn : download_filename data with
  | none => rw [hn] at h; simp at h
  | some name =>
    rw [hn] at h
    simp only [Option.map_some', Option.some.injEq] at h
    rw [← h]

theorem slot_pollin_keeps (env : pass_env) (f : pollfd) (c : file_transfer_t)
    (rest : List file_transfer_t) (hrest : ∀ s ∈ rest, s.client_fd = 0) (hf0 : f.fd ≠ 0)
    (hfa : f.events &&& POLLOUT ≠ 0 → 0 ≤ f.fd ∧ c.client_fd = f.fd) :
    slot_keeps f c rest (slot_pollin env f (c :: rest)) := by
  unfold slot_pollin
  simp only
  generalize server_read (env.recv f.fd) (List.replicate PACKET_MAX_SIZE 0)
    PACKET_MAX_SIZE = rd
  have hsame : ∀ y : Int, 0 ≤ y → y ≠ f.fd → c.client_fd = y → c.client_fd = y :=
    fun _ _ _ h => h
  by_cases h1 : rd.1 ≤ 0
  · rw [if_pos h1]
    exact connection_release_keeps f _ c c rest _ _ hrest rfl hf0 hfa hsame
  · rw [if_neg h1]
    by_cases h2 : rd.2.getD 0 0 ≠ env.cmd_download_file
    · rw [if_pos h2]
      exact connection_release_keeps f _ c c rest _ _ hrest rfl hf0 hfa hsame
    · rw [if_neg h2]
      cases hctx : download_context f.fd rd.2 with
      | none => exact ⟨c, rfl, Or.inl rfl, hfa, hsame⟩
      | some ctx =>
        simp only
        have hcfd := download_context_fd _ _ _ hctx
        rcases add_head_effect ctx c rest hrest with ⟨hneg, htab⟩ | ⟨hadd, hc, hctx0⟩
        · rw [if_pos hneg, htab]
          exact connection_release_keeps f _ c c rest _ _ hrest rfl hf0 hfa hsame
        · rw [hadd]
          simp only
          rw [if_neg (by omega)]
          refine connection_release_keeps f _ c ctx rest _ _ hrest rfl hf0 ?_ ?_
          · intro _
            exact ⟨by rw [← hcfd]; exact hctx0, hcfd⟩
          · intro y hy _ hcy
            omega

theorem slot_pollout_keeps (env : pass_env) (f : pollfd) (c : file_transfer_t)
    (rest : List file_transfer_t) (hrest : ∀ s ∈ rest, s.client_fd = 0) (hf0 : f.fd ≠ 0)
    (hfa : f.events &&& POLLOUT ≠ 0 → 0 ≤ f.fd ∧ c.client_fd = f.fd) :
    slot_keeps f c rest (slot_pollout env f (c :: rest)) := by
  unfold slot_pollout
  simp only [List.headD_cons, List.set_cons_zero]
  have hcf := file_transfer_ctx_client_fd env.fs (env.send f.fd) c
  generalize file_transfer env.fs (env.send f.fd) c = ft at hcf
  have hga : f.events &&& POLLOUT ≠ 0 → 0 ≤ f.fd ∧ ft.ctx.client_fd = f.fd := by
    intro h; rw [hcf]; exact hfa h
  by_cases h1 : ft.err < 0
  · rw [if_pos h1]
    obtain ⟨c', h1', h2, h3, h4⟩ := resources_release_keeps
      { f with revents := f.revents &&& (SHORT_MASK ^^^ POLLOUT) } ft.ctx rest hrest hf0 hga
    exact ⟨c', h1', h2, h3, fun y hy hne hcy => h4 y hy hne (by rw [hcf]; exact hcy)⟩
  · rw [if_neg h1]
    by_cases h2 : ft.err = 0
    · rw [if_pos h2]
      refine ⟨ft.ctx, rfl, Or.inl rfl, ?_, fun y _ _ hcy => by rw [hcf]; exact hcy⟩
      intro h
      exact absurd (by decide : POLLIN &&& POLLOUT = 0) h
    · rw [if_neg h2]
      exact ⟨ft.ctx, rfl, Or.inl rfl, hga, fun y _ _ hcy => by rw [hcf]; exact hcy⟩

/-- Handling one client slot keeps what `serving_inv` needs, whatever branch
of the loop body is taken. -/
theorem slot_events_process_keeps (env : pass_env) (f : pollfd) (c : file_transfer_t)
    (rest : List file_transfer_t) (hrest : ∀ s ∈ rest, s.client_fd = 0) (hf0 : f.fd ≠ 0)
    (hfa : f.events &&& POLLOUT ≠ 0 → 0 ≤ f.fd ∧ c.client_fd = f.fd) :
    slot_keeps f c rest (slot_events_process env f (c :: rest)) := by
  have hsame : slot_keeps f c rest
      { slot := f, table := c :: rest, err := 0, trace := [], brk := false } :=
    ⟨c, rfl, Or.inl rfl, hfa, fun _ _ _ h => h⟩
  unfold slot_events_process
  split
  · exact ⟨c, rfl, Or.inl rfl, hfa, fun _ _ _ h => h⟩
  · split
    · exact connection_release_keeps f f c c rest _ _ hrest rfl hf0 hfa (fun _ _ _ h => h)
    · split
      · exact hsame
      · split
        · exact slot_pollin_keeps env f c rest hrest hf0 hfa
        · split
          · exact slot_pollout_keeps env f c rest hrest hf0 hfa
          · split
            · exact hsame
            · exact ⟨c, rfl, Or.inl rfl, hfa, fun _ _ _ h => h⟩

theorem getD_set_self (l : List pollfd) (i : Nat) (x d : pollfd) (h : i < l.length) :
    (l.set i x).getD i d = x := by
  simp [List.getD_eq_getElem?_getD, List.getElem?_set, h]

theorem serving_inv_set (fds : List pollfd) (table : List file_transfer_t) (i : Nat)
    (x : pollfd) (c' : file_transfer_t) (rest : List file_transfer_t)
    (hinv : serving_inv fds table) (hi1 : 1 ≤ i) (hi3 : i ≤ 3)
    (hrest : ∀ s ∈ rest, s.client_fd = 0) (hx0 : x.fd ≠ 0)
    (hxa : x.events &&& POLLOUT ≠ 0 → 0 ≤ x.fd ∧ c'.client_fd = x.fd)
    (hxf : 0 ≤ x.fd → ∀ j, 1 ≤ j → j ≤ 3 → j ≠ i → (fds.getD j pollfd_zero).fd ≠ x.fd)
    (hoth : ∀ j, 1 ≤ j → j ≤ 3 → j ≠ i → (fds.getD j pollfd_zero).events &&& POLLOUT ≠ 0 →
      c'.client_fd = (fds.getD j pollfd_zero).fd) :
    serving_inv (fds.set i x) (c' :: rest) := by
  obtain ⟨hlen, _, hcl, hdis⟩ := hinv
  have hil : i < fds.length := by omega
  refine ⟨by rw [List.length_set]; exact hlen, ⟨c', rest, rfl, hrest⟩, ?_, ?_⟩
  · intro k hk1 hk3
    by_cases hki : k = i
    · subst hki
      rw [getD_set_self fds k x _ hil]
      exact ⟨hx0, hxa⟩
    · rw [getD_set_ne fds i k x _ (fun h => hki h.symm)]
      refine ⟨(hcl k hk1 hk3).1, fun ha => ⟨((hcl k hk1 hk3).2 ha).1, ?_⟩⟩
      exact hoth k hk1 hk3 hki ha
  · intro a b ha1 ha3 hb1 hb3 hab
    by_cases hai : a = i
    · subst hai
      rw [getD_set_self fds a x _ hil, getD_set_ne fds a b x _ hab]
      intro h0 heq
      exact hxf h0 b hb1 hb3 (fun h => hab h.symm) heq.symm
    · rw [getD_set_ne fds i a x _ (fun h => hai h.symm)]
      by_cases hbi : b = i
      · subst hbi
        rw [getD_set_self fds b x _ hil]
        intro h0 heq
        exact hxf (by rw [← heq]; exact h0) a ha1 ha3 hai heq
      · rw [getD_set_ne fds i b x _ (fun h => hbi h.symm)]
        exact hdis a b ha1 ha3 hb1 hb3 hab

theorem serving_inv_slot (fds : List pollfd) (c : file_transfer_t)
    (rest : List file_transfer_t) (i : Nat) (r : slot_result)
    (hinv : serving_inv fds (c :: rest)) (hi1 : 1 ≤ i) (hi3 : i ≤ 3)
    (hk : slot_keeps (fds.getD i pollfd_zero) c rest r) :
    serving_inv (fds.set i r.slot) r.table := by
  obtain ⟨c', htab, hfd, harm, hkeep⟩ := hk
  have hinv' := hinv
  obtain ⟨_, ⟨c0, rest0, hcr, hrest0⟩, hcl, hdis⟩ := hinv
  have hr : rest0 = rest := by injection hcr with _ h; exact h.symm
  subst hr
  rw [htab]
  refine serving_inv_set fds (c :: rest0) i r.slot c' rest0 hinv' hi1 hi3 hrest0 ?_ harm ?_ ?_
  · rcases hfd with h | h
    · rw [h]; exact (hcl i hi1 hi3).1
    · rw [h]; decide
  · intro h0 j hj1 hj3 hji
    rcases hfd with h | h
    · rw [h]
      intro heq
      exact hdis i j hi1 hi3 hj1 hj3 (fun e => hji e.symm) (by rw [← h]; exact h0) heq.symm
    · rw [h] at h0; omega
  · intro j hj1 hj3 hji ha
    have hj := (hcl j hj1 hj3).2 ha
    refine hkeep _ hj.1 ?_ hj.2
    exact hdis j i hj1 hj3 hi1 hi3 hji hj.1

theorem events_loop_step_inv (env : pass_env) (j : Nat) (st : pass_state)
    (hinv : serving_inv st.fds st.table) (hj1 : 1 ≤ j) (hj3 : j ≤ 3) :
    serving_inv (events_loop_step env j st).1.fds (events_loop_step env j st).1.table := by
  have hinv' := hinv
  obtain ⟨_, ⟨c, rest, hcr, hrest⟩, hcl, _⟩ := hinv
  unfold events_loop_step
  simp only
  rw [hcr] at hinv' ⊢
  apply serving_inv_slot st.fds c rest j _ hinv' hj1 hj3
  apply slot_events_process_keeps env _ c rest hrest (hcl j hj1 hj3).1
  intro ha
  have := (hcl j hj1 hj3).2 ha
  rw [hcr] at this
  exact this

theorem events_loop_step_other (env : pass_env) (i j : Nat) (st : pass_state) (h : j ≠ i) :
    (events_loop_step env j st).1.fds.getD i pollfd_zero = st.fds.getD i pollfd_zero := by
  unfold events_loop_step
  simp only
  rw [getD_set_ne _ j i _ _ h]

theorem events_loop_inv (env : pass_env) (js : List Nat) (st : pass_state)
    (hjs : ∀ j ∈ js, 1 ≤ j ∧ j ≤ 3) (hinv : serving_inv st.fds st.table) :
    serving_inv (events_loop env js st).fds (events_loop env js st).table := by
  induction js generalizing st with
  | nil => exact hinv
  | cons j rest ih =>
    have hj := hjs j (List.mem_cons_self _ _)
    have hstep := events_loop_step_inv env j st hinv hj.1 hj.2
    unfold events_loop
    simp only
    by_cases hb : (events_loop_step env j st).2 = true
    · rw [if_pos hb]; exact hstep
    · rw [if_neg hb]
      exact ih _ (fun k hk => hjs k (List.mem_cons_of_mem _ hk)) hstep

/-- When the loop comes to slot `i`, the invariant still holds and slot `i` is
as it was when the pass began. -/
theorem events_loop_at_inv (env : pass_env) (js : List Nat) (st st' : pass_state) (i : Nat)
    (hjs : ∀ j ∈ js, 1 ≤ j ∧ j ≤ 3) (hinv : serving_inv st.fds st.table)
    (h : events_loop_at env js st i = some st') :
    serving_inv st'.fds st'.table ∧
      st'.fds.getD i pollfd_zero = st.fds.getD i pollfd_zero ∧ 1 ≤ i ∧ i ≤ 3 := by
  induction js generalizing st with
  | nil => simp [events_loop_at] at h
  | cons j rest ih =>
    have hj := hjs j (List.mem_cons_self _ _)
    unfold events_loop_at at h
    by_cases hji : j = i
    · rw [if_pos hji] at h
      injection h with h
      subst h
      exact ⟨hinv, rfl, by omega, by omega⟩
    · rw [if_neg hji] at h
      simp only at h
      by_cases hb : (events_loop_step env j st).2 = true
      · rw [if_pos hb] at h; exact absurd h (by simp)
      · rw [if_neg hb] at h
        have hstep := events_loop_step_inv env j st hinv hj.1 hj.2
        obtain ⟨h1, h2, h3⟩ := ih _ (fun k hk => hjs k (List.mem_cons_of_mem _ hk)) hstep h
        exact ⟨h1, by rw [h2, events_loop_step_other env i j st hji], h3⟩

theorem client_indices (j : Nat)
    (h : j ∈ List.range' (SERVER_SOCKET_LISTEN_INDEX + 1)
      (SERVER_STATE_MACHINE_FDS_MAX - (SERVER_SOCKET_LISTEN_INDEX + 1))) :
    1 ≤ j ∧ j ≤ 3 := by
  simp [SERVER_SOCKET_LISTEN_INDEX, SERVER_STATE_MACHINE_FDS_MAX, List.mem_range'] at h
  omega

theorem poll_store_length (revs : Nat → Nat) (start : Nat) (fds : List pollfd) :
    (poll_store revs start fds).length = fds.length := by
  induction fds generalizing start with
  | nil => rfl
  | cons f rest ih => simp [poll_store, ih]

theorem poll_store_getD (revs : Nat → Nat) (start : Nat) (fds : List pollfd) (i : Nat)
    (h : i < fds.length) :
    (poll_store revs start fds).getD i pollfd_zero =
      { fds.getD i pollfd_zero with revents := revs (start + i) } := by
  induction fds generalizing start i with
  | nil => simp at h
  | cons f rest ih =>
    cases i with
    | zero => rfl
    | succ i =>
      have hi : i < rest.length := by simpa using h
      show (poll_store revs (start + 1) rest).getD i pollfd_zero = _
      rw [ih (start + 1) i hi]
      show _ = { rest.getD i pollfd_zero with revents := revs (start + (i + 1)) }
      rw [show start + 1 + i = start + (i + 1) by omega]

theorem serving_inv_congr (fds fds' : List pollfd) (table : List file_transfer_t)
    (hlen : fds'.length = fds.length)
    (hsame : ∀ i, 1 ≤ i → i ≤ 3 →
      (fds'.getD i pollfd_zero).fd = (fds.getD i pollfd_zero).fd ∧
      (fds'.getD i pollfd_zero).events = (fds.getD i pollfd_zero).events)
    (hinv : serving_inv fds table) : serving_inv fds' table := by
  obtain ⟨h1, h2, h3, h4⟩ := hinv
  refine ⟨by rw [hlen]; exact h1, h2, ?_, ?_⟩
  · intro i hi1 hi3
    rw [(hsame i hi1 hi3).1, (hsame i hi1 hi3).2]
    exact h3 i hi1 hi3
  · intro i j hi1 hi3 hj1 hj3 hij
    rw [(hsame i hi1 hi3).1, (hsame j hj1 hj3).1]
    exact h4 i j hi1 hi3 hj1 hj3 hij

theorem serving_inv_poll_store (revs : Nat → Nat) (fds : List pollfd)
    (table : List file_transfer_t) (hinv : serving_inv fds table) :
    serving_inv (poll_store revs 0 fds) table := by
  have hlen := hinv.1
  refine serving_inv_congr fds _ table (poll_store_length revs 0 fds) ?_ hinv
  intro i _ hi3
  rw [poll_store_getD revs 0 fds i (by omega)]
  exact ⟨rfl, rfl⟩

theorem poll_store_asked (revs : Nat → Nat) (fds : List pollfd) (hlen : fds.length = 4)
    (hok : poll_ok fds revs) (i : Nat) (hi3 : i ≤ 3)
    (h : ((poll_store revs 0 fds).getD i pollfd_zero).revents &&& POLLOUT ≠ 0) :
    ((poll_store revs 0 fds).getD i pollfd_zero).events &&& POLLOUT ≠ 0 := by
  rw [poll_store_getD revs 0 fds i (by omega)] at h ⊢
  simp only [Nat.zero_add] at h ⊢
  exact (hok i (by omega)).2.2.2 h

theorem client_add_scan_result (ioctl_ret fd : Int) (events : Nat) (l : List pollfd)
    (r : List pollfd × List io_event)
    (h : _client_connection_add_scan ioctl_ret fd events l = some r) :
    ∃ k x, k < l.length ∧ r.1 = l.set k x ∧ (x.fd = fd ∨ x.fd = -1) ∧
      (x.events = events ∨ x.events = 0) := by
  induction l generalizing r with
  | nil => simp [_client_connection_add_scan] at h
  | cons s rest ih =>
    unfold _client_connection_add_scan at h
    by_cases hs : s.fd ≥ 0
    · rw [if_pos hs] at h
      cases hr : _client_connection_add_scan ioctl_ret fd events rest with
      | none => rw [hr] at h; simp at h
      | some r0 =>
        rw [hr] at h
        simp only [Option.map_some', Option.some.injEq] at h
        obtain ⟨k, x, hk, hset, hx⟩ := ih r0 hr
        refine ⟨k + 1, x, by simp; omega, ?_, hx⟩
        rw [← h]
        show s :: r0.1 = s :: rest.set k x
        rw [hset]
    · rw [if_neg hs] at h
      simp only at h
      by_cases hio : ioctl_ret < 0
      · rw [if_pos hio] at h
        injection h with h
        refine ⟨0, (_client_connection_close { s with fd := fd, events := events }).1,
          by simp, by rw [← h]; rfl, ?_, ?_⟩
        · unfold _client_connection_close
          by_cases hf : fd ≥ 0
          · simp only [hf, if_true]; right; trivial
          · simp only [hf, if_false]; left; trivial
        · unfold _client_connection_close
          by_cases hf : fd ≥ 0
          · simp only [hf, if_true]; right; trivial
          · simp only [hf, if_false]; left; trivial
      · rw [if_neg hio] at h
        injection h with h
        exact ⟨0, { s with fd := fd, events := events }, by simp, by rw [← h]; rfl,
          Or.inl rfl, Or.inl rfl⟩

theorem client_connection_add_fds (ioctl : Int → Int) (fd : Int) (events : Nat)
    (fds : List pollfd) :
    (_client_connection_add ioctl fd events fds).2.1 = fds ∨
    ∃ k x, 1 ≤ k ∧ k < fds.length ∧
      (_client_connection_add ioctl fd events fds).2.1 = fds.set k x ∧
      (x.fd = fd ∨ x.fd = -1) ∧ (x.events = events ∨ x.events = 0) := by
  cases fds with
  | nil => left; rfl
  | cons l clients =>
    unfold _client_connection_add
    cases hr : _client_connection_add_scan (ioctl fd) fd events clients with
    | none => left; simp only [hr]
    | some r =>
      obtain ⟨k, x, hk, hset, hx⟩ := client_add_scan_result _ _ _ _ _ hr
      right
      refine ⟨k + 1, x, by omega, by simp; omega, ?_, hx⟩
      simp only [hr]
      show l :: r.1 = l :: clients.set k x
      rw [hset]

theorem accept_fds (ioctl : Int → Int) (accepts : List accept_outcome) (fds : List pollfd) :
    (server_connections_accept (_client_connection_add_callback ioctl) POLLIN accepts
        (fds, [])).2.1.1 = fds ∨
    ∃ o ∈ accepts, 0 ≤ o.ret ∧
      (server_connections_accept (_client_connection_add_callback ioctl) POLLIN accepts
        (fds, [])).2.1.1 = (_client_connection_add ioctl o.ret POLLIN fds).2.1 := by
  cases accepts with
  | nil => left; rfl
  | cons o rest =>
    by_cases h : o.ret < 0
    · left
      simp [server_connections_accept, server_connections_accept_loop, h]
    · right
      refine ⟨o, List.mem_cons_self _ _, by omega, ?_⟩
      rw [server_connections_accept_one _ _ _ _ _ (by omega)]
      rfl

theorem getD_mem (l : List pollfd) (i : Nat) (h : i < l.length) :
    l.getD i pollfd_zero ∈ l := by
  rw [List.getD_eq_getElem _ _ h]
  exact List.getElem_mem _

/-- The case `SERVER_POLL_INCOMING_CONNECTIONS` keeps the invariant when
`accept` behaves as `accept_ok` says. -/
theorem serving_inv_accept (ioctl : Int → Int) (accepts : List accept_outcome)
    (fds : List pollfd) (table : List file_transfer_t)
    (hinv : serving_inv fds table) (hok : accept_ok fds accepts) :
    serving_inv (server_connections_accept (_client_connection_add_callback ioctl) POLLIN
      accepts (fds, [])).2.1.1 table := by
  rcases accept_fds ioctl accepts fds with h | ⟨o, ho, hret, h⟩
  · rw [h]; exact hinv
  · rw [h]
    rcases client_connection_add_fds ioctl o.ret POLLIN fds with h2 | ⟨k, x, hk1, hk, hset, hxf, hxe⟩
    · rw [h2]; exact hinv
    · rw [hset]
      have hinv' := hinv
      obtain ⟨hlen, ⟨c, rest, hcr, hrest⟩, hcl, _⟩ := hinv
      obtain ⟨hne0, hfresh⟩ := hok o ho hret
      rw [hcr] at hinv' ⊢
      refine serving_inv_set fds (c :: rest) k x c rest hinv' hk1 (by omega) hrest ?_ ?_ ?_ ?_
      · rcases hxf with e | e
        · rw [e]; exact hne0
        · rw [e]; decide
      · intro ha
        rcases hxe with e | e
        · rw [e] at ha; exact absurd (by decide : POLLIN &&& POLLOUT = 0) ha
        · rw [e] at ha; exact absurd (by decide : 0 &&& POLLOUT = 0) ha
      · intro h0 j _ hj3 _
        rcases hxf with e | e
        · rw [e]; exact hfresh _ (getD_mem fds j (by omega))
        · rw [e] at h0; omega
      · intro j hj1 hj3 _ ha
        have := ((hcl j hj1 hj3).2 ha).2
        rw [hcr] at this
        exact this

theorem serving_inv_start (listen : Int) :
    serving_inv
      ((_reset_descriptor_set server_start.fds).set SERVER_SOCKET_LISTEN_INDEX
        { ((_reset_descriptor_set server_start.fds).getD SERVER_SOCKET_LISTEN_INDEX
            pollfd_zero) with fd := listen, events := POLLIN })
      (file_transfer_list_reset server_start.table SERVER_STATE_MACHINE_FDS_MAX) := by
  refine ⟨rfl, ⟨slot_clear file_transfer_zero, List.replicate 3 file_transfer_zero, rfl, ?_⟩,
    ?_, ?_⟩
  · intro s hs
    rw [List.eq_of_mem_replicate hs]
    rfl
  · intro i hi1 hi3
    have : i = 1 ∨ i = 2 ∨ i = 3 := by omega
    rcases this with h | h | h <;> subst h <;>
      exact ⟨by show (-1 : Int) ≠ 0; decide,
        fun ha => absurd (by decide : 0 &&& POLLOUT = 0) ha⟩
  · intro i j hi1 hi3 _ _ _
    have : i = 1 ∨ i = 2 ∨ i = 3 := by omega
    rcases this with h | h | h <;> subst h <;> intro h0 <;>
      exact absurd h0 (by show ¬ (0 ≤ (-1 : Int)); decide)

theorem slot_write_ready (env : pass_env) (f : pollfd) (table : List file_transfer_t)
    (h : write_ready f) : slot_events_process env f table = slot_pollout env f table := by
  obtain ⟨h1, h2, h3, h4, h5, h6⟩ := h
  unfold slot_events_process
  rw [if_neg (by rw [h1]; simp), if_neg (by rw [h2, h3]; simp), if_neg (by rw [h4]; simp),
    if_neg (by rw [h5]; simp), if_pos h6]

/-- The write-readiness branch on a slot whose context is element 0 of the
table, the other elements having `client_fd = 0`. -/
theorem slot_pollout_own (env : pass_env) (f : pollfd) (c : file_transfer_t)
    (rest : List file_transfer_t) (hrest : ∀ s ∈ rest, s.client_fd = 0)
    (hf : 0 ≤ f.fd) (hf0 : f.fd ≠ 0) (hc : c.client_fd = f.fd) :
    (slot_pollout env f (c :: rest)).trace =
      transfer_trace f.fd (file_transfer env.fs (env.send f.fd) c) ++
        (if (file_transfer env.fs (env.send f.fd) c).err < 0 then [io_event.close f.fd]
         else []) ∧
    (slot_pollout env f (c :: rest)).table =
      (if (file_transfer env.fs (env.send f.fd) c).err < 0
        then slot_clear (file_transfer env.fs (env.send f.fd) c).ctx
        else (file_transfer env.fs (env.send f.fd) c).ctx) :: rest := by
  unfold slot_pollout
  simp only [List.headD_cons, List.set_cons_zero]
  have hcf := file_transfer_ctx_client_fd env.fs (env.send f.fd) c
  generalize file_transfer env.fs (env.send f.fd) c = ft at hcf
  by_cases h1 : ft.err < 0
  · rw [if_pos h1, if_pos h1, if_pos h1]
    unfold _client_connection_resources_release _client_connection_close
    simp only
    rw [remove_tail_zero f.fd ft.ctx rest hrest hf0, if_pos (show f.fd ≥ 0 from hf),
      if_neg (by rw [hcf, hc]; simp)]
    exact ⟨rfl, rfl⟩
  · rw [if_neg h1, if_neg h1, if_neg h1]
    by_cases h2 : ft.err = 0
    · rw [if_pos h2]; exact ⟨by simp, rfl⟩
    · rw [if_neg h2]; exact ⟨by simp, rfl⟩

/-- Every state the program reaches is the start state, or has state
`SERVER_FATAL_ERROR`, or follows undefined behaviour, or satisfies
`serving_inv`; in the last case, between a `poll` and the dispatch pass a
client slot reported writable has asked for write-readiness. -/
theorem reachable_serving (s : server_t) (h : reachable s) :
    s.state = server_state_t.SERVER_FATAL_ERROR ∨
    (s.undefined = true ∧ s.state = server_state_t.SERVER_POLL_FOR_EVENTS) ∨
    s = server_start ∨
    (s.state ≠ server_state_t.SERVER_LISTEN_BEGIN ∧ s.undefined = false ∧
      serving_inv s.fds s.table ∧
      (s.state = server_state_t.SERVER_POLL_INCOMING_CONNECTIONS ∨
          s.state = server_state_t.SERVER_PROCESS_CONNECTION_EVENTS →
        ∀ i, 1 ≤ i → i ≤ 3 → (s.fds.getD i pollfd_zero).revents &&& POLLOUT ≠ 0 →
          (s.fds.getD i pollfd_zero).events &&& POLLOUT ≠ 0)) := by
  induction h with
  | start => right; right; left; rfl
  | step e s _ hex hun hpoll hacc ih =>
    rcases ih with hF | ⟨hU, _⟩ | hS | ⟨hne, _, hinv, hR⟩
    · left
      unfold server_state_machine_init
      simp only [hF]
    · rw [hun] at hU; exact absurd hU (by decide)
    · subst hS
      by_cases hl : e.listen < 0
      · left
        unfold server_state_machine_init
        simp only [server_start, hl, if_true]
      · right; right; right
        have hstep : server_state_machine_init e server_start =
            { server_start with
              state := server_state_t.SERVER_POLL_FOR_EVENTS,
              fds := (_reset_descriptor_set server_start.fds).set SERVER_SOCKET_LISTEN_INDEX
                { ((_reset_descriptor_set server_start.fds).getD SERVER_SOCKET_LISTEN_INDEX
                    pollfd_zero) with fd := e.listen, events := POLLIN },
              table := file_transfer_list_reset server_start.table
                SERVER_STATE_MACHINE_FDS_MAX } := by
          unfold server_state_machine_init
          simp only [server_start, hl, if_false]
        rw [hstep]
        exact ⟨by simp, rfl, serving_inv_start e.listen, fun h => by simp at h⟩
    · cases hst : s.state with
      | SERVER_LISTEN_BEGIN => exact absurd hst hne
      | SERVER_POLL_FOR_EVENTS =>
        unfold server_state_machine_init
        simp only [hst]
        by_cases hp : e.poll_ret < 0
        · left; rw [if_pos hp]
        · right; right; right
          rw [if_neg hp]
          refine ⟨by simp, hun, serving_inv_poll_store _ _ _ hinv, fun _ i _ hi3 ha => ?_⟩
          exact poll_store_asked e.poll_revents s.fds hinv.1 (hpoll hst) i hi3 ha
      | SERVER_POLL_INCOMING_CONNECTIONS =>
        unfold server_state_machine_init
        simp only [hst]
        by_cases h1 : (s.fds.getD SERVER_SOCKET_LISTEN_INDEX pollfd_zero).revents &&& POLLIN ≠ 0
        · right; right; right
          rw [if_pos h1]
          exact ⟨by simp, hun, serving_inv_accept _ _ _ _ hinv (hacc hst), fun h => by simp at h⟩
        · rw [if_neg h1]
          by_cases h2 : (s.fds.getD SERVER_SOCKET_LISTEN_INDEX pollfd_zero).revents ≠ 0 ∧
              (s.fds.getD SERVER_SOCKET_LISTEN_INDEX pollfd_zero).revents ≠ POLLIN
          · left; rw [if_pos h2]
          · right; right; right
            rw [if_neg h2]
            exact ⟨by simp, hun, hinv, fun _ => hR (Or.inl hst)⟩
      | SERVER_PROCESS_CONNECTION_EVENTS =>
        unfold server_state_machine_init
        simp only [hst]
        unfold server_state_machine_process_case
        simp only
        by_cases he : (_client_connection_events_process e.pass s.fds s.table).err < 0
        · left; rw [if_pos he]
        · right
          rw [if_neg he]
          cases hu : (_client_connection_events_process e.pass s.fds s.table).undefined with
          | true => left; exact ⟨rfl, rfl⟩
          | false =>
            right; right
            refine ⟨by simp, rfl, ?_, fun h => by simp at h⟩
            exact events_loop_inv e.pass _ _ client_indices hinv
      | SERVER_FATAL_ERROR =>
        left
        unfold server_state_machine_init
        simp only [hst]

/-- A run checked by `run_ok` from a reachable state ends in a reachable
state. -/
theorem reachable_run (es : List step_env) (s : server_t) (hs : reachable s)
    (h : run_ok s es = true) : reachable (server_run s es) := by
  induction es generalizing s with
  | nil => exact hs
  | cons e es ih =>
    unfold run_ok at h
    simp only [Bool.and_eq_true, decide_eq_true_eq] at h
    obtain ⟨⟨⟨⟨h1, h2⟩, h3⟩, h4⟩, h5⟩ := h
    exact ih _ (reachable.step e s hs h1 h2 h3 h4) h5

/-- The state after the eight calls of `steps_to_write`: descriptor 4 in slot
1 asks for write-readiness and is reported writable, and its context for the
file "a" is element 0 of the table. -/
theorem steps_to_write_state :
    (server_run server_start steps_to_write).state =
        server_state_t.SERVER_PROCESS_CONNECTION_EVENTS ∧
      (server_run server_start steps_to_write).fds =
        [{ fd := 3, events := POLLIN, revents := 0 },
         { fd := 4, events := POLLIN ||| POLLOUT, revents := POLLOUT },
         slot_unused, slot_unused] ∧
      (server_run server_start steps_to_write).table =
        [ctx_of 4 [97], file_transfer_zero, file_transfer_zero, file_transfer_zero] := by
  decide

theorem steps_to_write_ok : run_ok server_start steps_to_write = true := by
  decide

end TcpServer
